import Mathlib

/-!
Verification of the bosmarmot `vent` event-to-SQL projection core against its
natural-language specification.  The Go sources are shallowly embedded: Go maps
become association lists whose list order models the (unspecified) map
enumeration order, fallible functions return `Except`, and the per-block SQL
transaction of the block writer is modelled by an explicit database state with
an outcome oracle per transaction attempt.
-/

deriving instance DecidableEq for Except

namespace Vent

/-! ### Shared string helpers (vent/sqldb/adapters/utils.go) -/

/-- `safe` from adapters/utils.go: strips every `;` and `,` from a parameter. -/
def Safe (parameter : String) : String :=
  String.mk (parameter.data.filter (fun c => !(c == ';' || c == ',')))

/-- ASCII upper-casing of a character (the identifiers fed to `strings.ToUpper`
and `strings.ToLower` in the source are plain ASCII SQL type names). -/
def charUpper (c : Char) : Char :=
  if 'a' ≤ c ∧ c ≤ 'z' then Char.ofNat (c.toNat - 32) else c

/-- ASCII lower-casing of a character. -/
def charLower (c : Char) : Char :=
  if 'A' ≤ c ∧ c ≤ 'Z' then Char.ofNat (c.toNat + 32) else c

/-- Go `strings.ToUpper` restricted to ASCII. -/
def strUpper (s : String) : String := String.mk (s.data.map charUpper)

/-- Go `strings.ToLower` restricted to ASCII. -/
def strLower (s : String) : String := String.mk (s.data.map charLower)

/-- `isNumeric` from adapters/utils.go: a datatype is numeric when its upper-case
form is `INTEGER` (SQLColumnTypeInt) or `SERIAL` (SQLColumnTypeSerial). -/
def IsNumeric (dataType : String) : Bool :=
  strUpper dataType == "INTEGER" || strUpper dataType == "SERIAL"

/-- Character-list version of Go `strings.HasPrefix`. -/
def listPre : List Char → List Char → Bool
  | [], _ => true
  | _ :: _, [] => false
  | a :: as, b :: bs => a == b && listPre as bs

/-- Go `strings.HasPrefix p s` (the embedding works on the underlying char lists). -/
def strHasPre (p s : String) : Bool := listPre p.data s.data

/-- First maximal digit run of a char list (Go `regexp.MustCompile("[0-9]+").FindString`). -/
def firstDigitRun : List Char → List Char
  | [] => []
  | c :: rest => if c.isDigit then (c :: rest).takeWhile Char.isDigit else firstDigitRun rest

/-- Decimal value of a digit list; `[]` gives `0`, matching Go `strconv.Atoi` whose
error (on the empty match) is discarded by the caller leaving `typeSize = 0`. -/
def digitsToNat (l : List Char) : Nat :=
  l.foldl (fun n c => n * 10 + (c.toNat - 48)) 0

/-- `typeSize` extraction in `getSQLType`: value of the first digit run of the signature. -/
def findNumber (s : String) : Nat := digitsToNat (firstDigitRun s.data)

/-- Association-list lookup (Go map read). -/
def alLookup {α : Type} : List (String × α) → String → Option α
  | [], _ => none
  | (k, v) :: rest, key => if k = key then some v else alLookup rest key

/-- Association-list insert-or-overwrite (Go map assignment `m[k] = v`). -/
def alInsert {α : Type} (l : List (String × α)) (k : String) (v : α) : List (String × α) :=
  if l.any (fun p => p.1 = k) then l.map (fun p => if p.1 = k then (k, v) else p)
  else l ++ [(k, v)]

/-! ### Postgres type mapping and the alter-column builder
    (vent/sqldb/adapters/postgres_adapter.go) -/

/-- `sqlDataTypes` of postgres_adapter.go: generic string column types to Postgres types. -/
def sqlDataTypes : List (String × String) :=
  [("BOOLEAN", "BOOLEAN"), ("BYTEA", "BYTEA"), ("INTEGER", "INTEGER"),
   ("SERIAL", "SERIAL"), ("TEXT", "TEXT"), ("VARCHAR", "VARCHAR"),
   ("TIMESTAMP", "TIMESTAMP")]

/-- `PostgresAdapter.GetTypeMapping`: look the generic type up, failing when absent. -/
def getTypeMapping (sqlGenericType : String) : Option String :=
  alLookup sqlDataTypes sqlGenericType

/-- `PostgresAdapter.GetAlterColumnQuery` (postgres_adapter.go line 294-297).
The source formats `ALTER TABLE %s.%s ADD COLUMN %s %s;` with arguments
`Schema, tableName, tableName, sqlType`, discarding the error of the type
mapping (an unknown generic type leaves `sqlType` empty). -/
def getAlterColumnQuery (schema tableName columnName sqlGenericType : String) : String :=
  let _ := columnName
  "ALTER TABLE " ++ schema ++ "." ++ tableName ++ " ADD COLUMN " ++ tableName ++ " " ++
    ((getTypeMapping sqlGenericType).getD "") ++ ";"

/-- The correct form of the alter-column statement as the spec describes it
(`ADD COLUMN <columnName> <type>`); used only to compare against the source's output. -/
def correctAlterColumnQuery (schema tableName columnName sqlGenericType : String) : String :=
  "ALTER TABLE " ++ schema ++ "." ++ tableName ++ " ADD COLUMN " ++ columnName ++ " " ++
    ((getTypeMapping sqlGenericType).getD "") ++ ";"

/-! ### The EVM-to-SQL type mapper (src/unnamed/part_001, `getSQLType`) -/

/-- Modelled from the spec: the generic SQL column type enumeration (spec §3 lists
BOOL, BYTEA, INT, NUMERIC, TEXT, VARCHAR, TIMESTAMP, SERIAL); the Go definition of
this revision's integer enum `types.SQLColumnType` is not under src/. -/
inductive SQLColumnType where
  | bool | bytea | int | numeric | text | varchar | timestamp | serial
deriving DecidableEq, Repr

/-- Modelled from the spec: the event-input type signature constants
(`types.EventInputTypeAddress` etc., not under src/); spec §4.1 and the test
fixtures fix them as the solidity names. -/
def EventInputTypeAddress : String := "address"

/-- Modelled from the spec: solidity `bool` signature constant. -/
def EventInputTypeBool : String := "bool"

/-- Modelled from the spec: solidity `bytes` signature constant. -/
def EventInputTypeBytes : String := "bytes"

/-- Modelled from the spec: solidity `string` signature constant. -/
def EventInputTypeString : String := "string"

/-- Modelled from the spec: solidity `int` signature constant. -/
def EventInputTypeInt : String := "int"

/-- Modelled from the spec: solidity `uint` signature constant. -/
def EventInputTypeUInt : String := "uint"

/-- `getSQLType` (src/unnamed/part_001 lines 185-227): maps an event input type
signature to a generic SQL column type and length.  The `isArray` parameter is
accepted and ignored exactly as in the source. -/
def getSQLType (evmSignature : String) (isArray : Bool) (bytesToString : Bool) :
    Except String (SQLColumnType × Nat) :=
  let _ := isArray
  let typeSize := findNumber evmSignature
  if evmSignature = EventInputTypeAddress then .ok (.varchar, 40)
  else if evmSignature = EventInputTypeBool then .ok (.bool, 0)
  else if strHasPre EventInputTypeBytes evmSignature then
    (if bytesToString then .ok (.varchar, 40) else .ok (.bytea, 0))
  else if evmSignature = EventInputTypeString then .ok (.text, 0)
  else if strHasPre EventInputTypeInt evmSignature then
    (if typeSize ≤ 32 then .ok (.int, 0) else .ok (.numeric, 0))
  else if strHasPre EventInputTypeUInt evmSignature then
    (if typeSize ≤ 16 then .ok (.int, 0) else .ok (.numeric, 0))
  else .error ("Don't know how to map evmSignature: " ++ evmSignature ++ " ")

/-- Follows the spec's words (claim C5): the set of known EVM type signatures —
`address`, `bool`, `string`, `bytesN`, `intN`, `uintN` with `N` a digit run
(possibly empty, covering the solidity aliases `int`/`uint`/`bytes`).  Used only
to compare the claimed domain with the source's `getSQLType`. -/
def claimKnownEvmSignature (s : String) : Bool :=
  s == "address" || s == "bool" || s == "string" ||
  (strHasPre "bytes" s && (s.data.drop 5).all Char.isDigit) ||
  (strHasPre "int" s && (s.data.drop 3).all Char.isDigit) ||
  (strHasPre "uint" s && (s.data.drop 4).all Char.isDigit)

/-! ### The spec parser (src/unnamed/part_001, `NewParserFromEventSpec`) -/

/-- Modelled from the spec: one input of the event signature (the Go struct behind
`eventDef.Event.Inputs` is not under src/). -/
structure EventInput where
  name : String
  typ : String
  indexed : Bool
deriving DecidableEq, Repr

/-- Modelled from the spec: one entry of the `Columns` map of a table spec —
`{sql_name, is_primary, bytes_to_string}` plus the EVM type signature that
part_001 reads from `col.Type` (the Go struct is not under src/). -/
structure EventColumn where
  name : String
  typ : String
  primary : Bool
  bytesToString : Bool
deriving DecidableEq, Repr

/-- Modelled from the spec: one entry of `types.EventSpec` (not under src/):
`TableName`, `Filter`, the event signature, and the `Columns` map.  The list
order of `columns` models the Go map enumeration order, which the runtime does
not fix. -/
structure EventDefinition where
  tableName : String
  filter : String
  eventName : String
  inputs : List EventInput
  columns : List (String × EventColumn)
deriving DecidableEq, Repr

/-- Modelled from the spec: `eventDef.Validate()` (not under src/) — each entry
must have a non-empty table name, filter and event name and at least one input
(spec §4.2 step 1). -/
def EventDefinition.validate (d : EventDefinition) : Except String Unit :=
  if d.tableName = "" then .error "table name is empty"
  else if d.filter = "" then .error "filter is empty"
  else if d.eventName = "" then .error "event name is empty"
  else if d.inputs = [] then .error "event has no inputs"
  else .ok ()

/-- `types.SQLTableColumn` of the part_001/part_004 revision (the Go field `Type`
is rendered `sqlType` because `Type` is reserved in Lean). -/
structure SQLTableColumn where
  name : String
  sqlType : SQLColumnType
  evmType : String
  length : Nat
  primary : Bool
  bytesToString : Bool
  order : Int
deriving DecidableEq, Repr

/-- `types.SQLTable` of the same revision; `columns` is the Go map
`map[string]SQLTableColumn` as an association list in enumeration order. -/
structure SQLTable where
  name : String
  filter : String
  columns : List (String × SQLTableColumn)
deriving DecidableEq, Repr

/-- `getGlobalColumns` (part_001 lines 231-267): the four system columns, keyed by
the event-data labels, with their fixed orders 1-4. -/
def getGlobalColumns : List (String × SQLTableColumn) :=
  [("height",
    { name := "_height", sqlType := .varchar, evmType := "", length := 100,
      primary := false, bytesToString := false, order := 1 }),
   ("txHash",
    { name := "_txhash", sqlType := .varchar, evmType := "", length := 40,
      primary := false, bytesToString := false, order := 2 }),
   ("eventType",
    { name := "_eventtype", sqlType := .varchar, evmType := "", length := 100,
      primary := false, bytesToString := false, order := 3 }),
   ("eventName",
    { name := "_eventname", sqlType := .varchar, evmType := "", length := 100,
      primary := false, bytesToString := false, order := 4 })]

/-- The column-building loop of `NewParserFromEventSpec` (part_001 lines 92-111):
the `j`-th enumerated user column (counting from 1) gets order `j + 4`; the EVM
type is lowercased before mapping, the SQL name is lowercased. -/
def buildColumns (gLen : Nat) : Nat → List (String × EventColumn) →
    Except String (List (String × SQLTableColumn))
  | _, [] => .ok []
  | j, (colName, col) :: rest =>
    match getSQLType (strLower col.typ) false col.bytesToString with
    | .error e => .error e
    | .ok (sqlType, sqlTypeLength) =>
      match buildColumns gLen (j + 1) rest with
      | .error e => .error e
      | .ok out =>
        .ok ((colName,
          { name := strLower col.name, sqlType := sqlType, evmType := col.typ,
            length := sqlTypeLength, primary := col.primary,
            bytesToString := col.bytesToString, order := ((j + 1) + gLen : Nat) }) :: out)

/-- The per-definition loop of `NewParserFromEventSpec` (part_001 lines 85-123):
validate, build the user columns, overlay the global columns, and assign the
table under the raw `TableName` key (map assignment, so an exact duplicate
table name silently overwrites the earlier entry). -/
def newParserGo : List (String × SQLTable) → List EventDefinition →
    Except String (List (String × SQLTable))
  | tables, [] => .ok tables
  | tables, d :: rest =>
    match d.validate with
    | .error e => .error e
    | .ok _ =>
      match buildColumns getGlobalColumns.length 0 d.columns with
      | .error e => .error e
      | .ok userCols =>
        let cols1 := userCols.foldl (fun m p => alInsert m p.1 p.2) []
        let cols2 := getGlobalColumns.foldl (fun m p => alInsert m p.1 p.2) cols1
        newParserGo
          (alInsert tables d.tableName
            { name := strLower d.tableName, filter := d.filter, columns := cols2 }) rest

/-- The `(table.Name ++ column.Name)` keys counted by the duplicate-column check
(part_001 lines 125-135), in iteration order. -/
def colPairs (tables : List (String × SQLTable)) : List (String × String) :=
  tables.foldr (fun p acc => (p.2.columns.map (fun c => (p.2.name, c.2.name))) ++ acc) []

/-- The first `(tableName, columnName)` whose concatenated key repeats (the
counter in part_001 reaching 2). -/
def firstDupPair : List String → List (String × String) → Option (String × String)
  | _, [] => none
  | seen, (t, c) :: rest =>
    if (t ++ c) ∈ seen then some (t, c) else firstDupPair ((t ++ c) :: seen) rest

/-- `NewParserFromEventSpec` (part_001 lines 77-141): build all tables, then fail
on a duplicated `(table, column)` name pair. -/
def NewParserFromEventSpec (eventSpec : List EventDefinition) :
    Except String (List (String × SQLTable)) :=
  match newParserGo [] eventSpec with
  | .error e => .error e
  | .ok tables =>
    match firstDupPair [] (colPairs tables) with
    | some (t, c) => .error ("Duplicated column name: " ++ c ++ " in table " ++ t)
    | none => .ok tables

/-! ### The column-order validation of `createTable` (src/unnamed/part_004
    lines 300-322) -/

/-- Outcome of the sorting loop: a sorted column array, a table-definition
error, or a Go index-out-of-range panic (`sortedColumns[idx]` with
`idx ≥ len`). -/
inductive SortResult where
  | ok (cols : List SQLTableColumn)
  | defErr (msg : String)
  | panicOOB (idx len : Nat)
deriving DecidableEq, Repr

/-- Go zero value of `types.SQLTableColumn` (`make([]types.SQLTableColumn, n)`
fills the slice with it); only `order = 0` is inspected by the loop. -/
def zeroColumn : SQLTableColumn :=
  { name := "", sqlType := .bool, evmType := "", length := 0,
    primary := false, bytesToString := false, order := 0 }

/-- The body of `createTable`'s sorting loop: for each column, error when
`Order <= 0`, error when `Order-1 > columns`, then access
`sortedColumns[Order-1]` — a panic when that index is out of range — checking
for a duplicate before writing the slot. -/
def sortLoop (total : Nat) : List SQLTableColumn → List SQLTableColumn → SortResult
  | arr, [] => .ok arr
  | arr, c :: rest =>
    if c.order ≤ 0 then
      .defErr ("table definition error," ++ c.name ++
        " has column_order <=0 (minimum value = 1)")
    else if (total : Int) < c.order - 1 then
      .defErr ("table definition error, " ++ c.name ++ " has column_order > total_columns")
    else
      let idx := (c.order - 1).toNat
      if h : idx < arr.length then
        if (arr.get ⟨idx, h⟩).order ≠ 0 then
          .defErr ("table definition error, " ++ (arr.get ⟨idx, h⟩).name ++ " and " ++
            c.name ++ " have duplicated column_order")
        else sortLoop total (arr.set idx c) rest
      else .panicOOB idx arr.length

/-- The sorting prologue of `SQLDB.createTable` (part_004 lines 305-322):
`sortedColumns := make([]SQLTableColumn, len(table.Columns))` then the loop. -/
def sortColumns (cols : List SQLTableColumn) : SortResult :=
  sortLoop cols.length (List.replicate cols.length zeroColumn) cols

/-! ### The Postgres CREATE TABLE and UPSERT builders
    (vent/sqldb/adapters/postgres_adapter.go, string-typed revision) -/

/-- `types.SQLTableColumn` of the string-typed adapter revision (`Type` is a
generic SQL type string such as `VARCHAR`). -/
structure PColumn where
  name : String
  typ : String
  length : Nat
  primary : Bool
deriving DecidableEq, Repr

/-- `types.SQLTable` of the string-typed adapter revision; the list models the
Go map enumeration order of `table.Columns`. -/
structure PTable where
  name : String
  columns : List PColumn
deriving DecidableEq, Repr

/-- Loop of `PostgresAdapter.GetCreateTableQuery` (postgres_adapter.go lines
72-93) accumulating the column definitions and the primary-key list. -/
def createTableGo : List PColumn → String → String → String × String
  | [], columnsDef, primaryKey => (columnsDef, primaryKey)
  | tc :: rest, columnsDef, primaryKey =>
    let colName := Safe tc.name
    let sqlType := (getTypeMapping tc.typ).getD ""
    let columnsDef1 :=
      (if columnsDef = "" then columnsDef else columnsDef ++ ", ") ++ colName ++ " " ++ Safe sqlType
    let columnsDef2 :=
      if 0 < tc.length then columnsDef1 ++ "(" ++ toString tc.length ++ ")" else columnsDef1
    if tc.primary then
      createTableGo rest (columnsDef2 ++ " NOT NULL")
        ((if primaryKey = "" then primaryKey else primaryKey ++ ", ") ++ colName)
    else createTableGo rest columnsDef2 primaryKey

/-- `PostgresAdapter.GetCreateTableQuery` (postgres_adapter.go lines 67-102). -/
def getCreateTableQuery (schema tableName : String) (columns : List PColumn) : String :=
  let p := createTableGo columns "" ""
  let query := "CREATE TABLE " ++ schema ++ "." ++ tableName ++ " (" ++ p.1
  let query :=
    if p.2 ≠ "" then
      query ++ "," ++ "CONSTRAINT " ++ tableName ++ "_pkey PRIMARY KEY (" ++ p.2 ++ ")"
    else query
  query ++ ");"

/-- The string constant behind each generic `SQLColumnType` (sql_column_type.go;
`NUMERIC` is listed by spec §3 for the enum revision). -/
def columnTypeString : SQLColumnType → String
  | .bool => "BOOLEAN"
  | .bytea => "BYTEA"
  | .int => "INTEGER"
  | .numeric => "NUMERIC"
  | .text => "TEXT"
  | .varchar => "VARCHAR"
  | .timestamp => "TIMESTAMP"
  | .serial => "SERIAL"

/-- Bridge from a parsed (enum-typed) column to the string-typed adapter column. -/
def toPColumn (c : SQLTableColumn) : PColumn :=
  { name := c.name, typ := columnTypeString c.sqlType, length := c.length, primary := c.primary }

/-- The CREATE TABLE statement the synchronizer would issue for a parsed table:
sort the columns by `order` with `sortColumns` (part_004) and render with
`getCreateTableQuery`; empty on a sort failure. -/
def tableCreateStatement (schema : String) (t : SQLTable) : String :=
  match sortColumns (t.columns.map (fun p => p.2)) with
  | .ok sorted => getCreateTableQuery schema t.name (sorted.map toPColumn)
  | _ => ""

/-- `types.UpsertColumn` (adapters/types.go). -/
structure UpsertColumn where
  isNumeric : Bool
  insPosition : Nat
  updPosition : Nat
deriving DecidableEq, Repr

/-- `types.UpsertQuery` (adapters/types.go); `columns` is the Go map as an
association list. -/
structure UpsertQuery where
  query : String
  length : Nat
  columns : List (String × UpsertColumn)
deriving DecidableEq, Repr

/-- Loop of `PostgresAdapter.GetUpsertQuery` (postgres_adapter.go lines 119-151):
accumulates the column list, the insert placeholders, the update assignments,
the non-primary-column counter `nKeys`, the column counter `i`, and the layout
map. -/
def getUpsertQueryGo (cols : Nat) :
    List PColumn → String → String → String → Nat → Nat → List (String × UpsertColumn) →
    String × String × String × Nat × List (String × UpsertColumn)
  | [], columns, insValues, updValues, nKeys, _, layout =>
    (columns, insValues, updValues, nKeys, layout)
  | tc :: rest, columns, insValues, updValues, nKeys, i, layout =>
    let isNum := IsNumeric tc.typ
    let safeCol := Safe tc.name
    let i' := i + 1
    let columns' := (if columns = "" then columns else columns ++ ", ") ++ safeCol
    let insValues' := (if columns = "" then insValues else insValues ++ ", ") ++ "$" ++ toString i'
    if tc.primary then
      getUpsertQueryGo cols rest columns' insValues' updValues nKeys i'
        (alInsert layout safeCol
          { isNumeric := isNum, insPosition := i' - 1, updPosition := 0 })
    else
      let cKey := cols + nKeys
      let updValues' :=
        (if updValues = "" then updValues else updValues ++ ", ") ++ safeCol ++ " = $" ++
          toString (cKey + 1)
      getUpsertQueryGo cols rest columns' insValues' updValues' (nKeys + 1) i'
        (alInsert layout safeCol
          { isNumeric := isNum, insPosition := i' - 1, updPosition := cKey })

/-- `PostgresAdapter.GetUpsertQuery` (postgres_adapter.go lines 105-167). -/
def getUpsertQuery (schema : String) (table : PTable) : UpsertQuery :=
  let cols := table.columns.length
  let r := getUpsertQueryGo cols table.columns "" "" "" 0 0 []
  let safeTable := Safe table.name
  let query :=
    "INSERT INTO " ++ schema ++ "." ++ safeTable ++ " (" ++ r.1 ++ ") VALUES (" ++
      r.2.1 ++ ") " ++
    (if r.2.2.2.1 ≠ 0 then
      "ON CONFLICT ON CONSTRAINT " ++ safeTable ++ "_pkey DO UPDATE SET " ++ r.2.2.1
     else "ON CONFLICT ON CONSTRAINT " ++ safeTable ++ "_pkey DO NOTHING") ++ ";"
  { query := query, length := cols + r.2.2.2.1, columns := r.2.2.2.2 }

/-! ### Closed forms used to state lemmas about the upsert builder -/

/-- Closed form of the comma-separated accumulation pattern of the source loops
(`if acc != "" { acc += ", " }; acc += s`). -/
def joinFrom (acc : String) (l : List String) : String :=
  l.foldl (fun a s => (if a = "" then a else a ++ ", ") ++ s) acc

/-- Comma-joined list starting from the empty accumulator. -/
def commaJoin (l : List String) : String := joinFrom "" l

/-- The insert placeholders `$ (i+1), $ (i+2), …` produced for `n` columns when
the counter starts at `i`. -/
def insEntries : Nat → Nat → List String
  | _, 0 => []
  | i, n + 1 => ("$" ++ toString (i + 1)) :: insEntries (i + 1) n

/-- The update assignments produced for the non-primary columns, with the
parameter counter continuing from `cols + nKeys`. -/
def updEntries (cols : Nat) : Nat → List PColumn → List String
  | _, [] => []
  | nKeys, c :: rest =>
    if c.primary then updEntries cols nKeys rest
    else (Safe c.name ++ " = $" ++ toString (cols + nKeys + 1)) :: updEntries cols (nKeys + 1) rest

/-- The layout entries produced by the loop, before the Go map collapses
duplicate keys. -/
def layoutEntries (cols : Nat) : Nat → Nat → List PColumn → List (String × UpsertColumn)
  | _, _, [] => []
  | nKeys, i, c :: rest =>
    if c.primary then
      (Safe c.name, { isNumeric := IsNumeric c.typ, insPosition := i, updPosition := 0 }) ::
        layoutEntries cols nKeys (i + 1) rest
    else
      (Safe c.name,
        { isNumeric := IsNumeric c.typ, insPosition := i, updPosition := cols + nKeys }) ::
        layoutEntries cols (nKeys + 1) (i + 1) rest

/-! ### The upsert parameter binder (vent/sqldb/adapters/utils.go,
    `getUpsertParams`) -/

/-- `types.EventDataRow`: column name to value, as an association list. -/
abbrev EventDataRow := List (String × String)

/-- Loop of `getUpsertParams` (adapters/utils.go lines 35-61) over the layout
map: a container slot holds `some v` for a bound value and `none` for NULL. -/
def upsertParamsGo (row : EventDataRow) :
    List (String × UpsertColumn) → List (Option String) → Except String (List (Option String))
  | [], containers => .ok containers
  | (colName, col) :: rest, containers =>
    match alLookup row colName with
    | some value =>
      let c1 := containers.set col.insPosition (some value)
      let c2 := if 0 < col.updPosition then c1.set col.updPosition (some value) else c1
      upsertParamsGo row rest c2
    | none =>
      if 0 < col.updPosition then
        upsertParamsGo row rest ((containers.set col.insPosition none).set col.updPosition none)
      else .error ("Error null primary key for column " ++ colName)

/-- `getUpsertParams` (adapters/utils.go lines 31-64): containers start as the
zero (NULL) array of the query's parameter count. -/
def getUpsertParams (uQuery : UpsertQuery) (row : EventDataRow) :
    Except String (List (Option String)) :=
  upsertParamsGo row uQuery.columns (List.replicate uQuery.length none)

/-! ### The block writer (vent/sqldb/adapters/pgsql_adapter.go, `SQLDB.SetBlock`
    and `SQLDB.GetLastBlockID`)

The per-block transaction is modelled operationally: the row/log effects of one
`SetBlock` attempt form a list of operations applied to an explicit database
state, and an outcome oracle (`Attempt`) says whether the transaction errors —
and at which operation, with which Postgres error code — or commits.  An
erroring attempt leaves the state unchanged (the transaction is rolled back);
a committing attempt applies every operation.  `SynchronizeDB` issues DDL only,
so it does not touch the row/log state modelled here. -/

/-- One `_bosmarmot_log` row: serial `id`, `registers`, `height`. -/
structure LogEntry where
  id : Nat
  registers : Nat
  height : String
deriving DecidableEq, Repr

/-- One `_bosmarmot_logdet` row. -/
structure LogDetEntry where
  id : Nat
  tblname : String
  tblmap : String
  registers : Nat
deriving DecidableEq, Repr

/-- The durable database state seen by the writer: the log, the log details,
and the journal of applied row upserts `(safe table name, row)` in order. -/
structure DBState where
  log : List LogEntry
  logdet : List LogDetEntry
  rows : List (String × EventDataRow)
deriving DecidableEq, Repr

/-- Current maximum log id (0 on an empty log); the serial column assigns
`maxLogId + 1` to the next inserted row. -/
def maxLogId (db : DBState) : Nat :=
  db.log.foldl (fun m e => max m e.id) 0

/-- The fold behind `GetLastBlockID`'s query: the log row with the maximal id. -/
def pickMaxLog (l : List LogEntry) : Option LogEntry :=
  l.foldl (fun acc e =>
    match acc with
    | none => some e
    | some m => if m.id < e.id then some e else some m) none

/-- `SQLDB.GetLastBlockID` (pgsql_adapter.go lines 82-109): the height stored on
the log row with `MAX(id)`, or `"0"` when the log is empty. -/
def GetLastBlockID (db : DBState) : String :=
  match pickMaxLog db.log with
  | none => "0"
  | some e => e.height

/-- `types.EventData` (event_data.go): the block height string and the rows per
table name. -/
structure EventData where
  block : String
  tables : List (String × List EventDataRow)
deriving DecidableEq, Repr

/-- `eventData.Tables[table.Name]` (missing key gives the empty row list). -/
def dataRowsFor (data : EventData) (tableName : String) : List EventDataRow :=
  (alLookup data.tables tableName).getD []

/-- One row/log operation performed inside the `SetBlock` transaction. -/
inductive TxOp where
  | insLog (registers : Nat) (height : String)
  | insLogDet (tblname tblmap : String) (registers : Nat)
  | upsertRow (tblname : String) (row : EventDataRow)
deriving DecidableEq, Repr

/-- Which statement an operation belongs to (drives the error handling:
only upsert failures reach the drift-retry block of `SetBlock`). -/
inductive OpKind where
  | logIns | logDet | upsert | commitOp
deriving DecidableEq, Repr

/-- Kind of an operation. -/
def TxOp.kind : TxOp → OpKind
  | .insLog _ _ => .logIns
  | .insLogDet _ _ _ => .logDet
  | .upsertRow _ _ => .upsert

/-- Postgres error classes distinguished by `SetBlock`'s handler
(`errUndefinedTable = 42P01`, `errUndefinedColumn = 42703`); every other error —
including the non-pq missing-primary-key error from `getUpsertParams` — falls
under `otherCode`. -/
inductive PgCode where
  | undefinedTable | undefinedColumn | dupTable | dupColumn | dupSchema | invalidType
  | otherCode
deriving DecidableEq, Repr

/-- The operations of one `SetBlock` transaction, in execution order
(pgsql_adapter.go lines 149-204): the `_bosmarmot_log` insert with
`registers = len(eventTables)`, then per table the `_bosmarmot_logdet` insert
followed by the row upserts. -/
def attemptOps (eventTables : List (String × SQLTable)) (data : EventData) : List TxOp :=
  .insLog eventTables.length data.block ::
    eventTables.flatMap (fun p =>
      let rows := dataRowsFor data p.2.name
      .insLogDet (Safe p.2.name) p.1 rows.length ::
        rows.map (fun r => .upsertRow (Safe p.2.name) r))

/-- Effect of one operation on the durable state (visible after commit only). -/
def applyOp (db : DBState) : TxOp → DBState
  | .insLog regs h => { db with log := db.log ++ [{ id := maxLogId db + 1, registers := regs, height := h }] }
  | .insLogDet tbl m regs =>
      { db with logdet := db.logdet ++ [{ id := maxLogId db, tblname := tbl, tblmap := m, registers := regs }] }
  | .upsertRow tbl r => { db with rows := db.rows ++ [(tbl, r)] }

/-- Outcome oracle for one transaction attempt: `failAt = some (j, c)` makes
operation `j` (or, at `j = #ops`, the commit itself) fail with code `c`;
`syncOk` says whether a `SynchronizeDB` run during drift recovery succeeds. -/
structure Attempt where
  failAt : Option (Nat × PgCode)
  syncOk : Bool
deriving DecidableEq, Repr

/-- Run one transaction attempt: an error rolls everything back (state
unchanged), success applies every operation. -/
def runAttempt (db : DBState) (ops : List TxOp) (a : Attempt) :
    Except (OpKind × PgCode) DBState :=
  match a.failAt with
  | some jc =>
    if h : jc.1 < ops.length then .error ((ops.get ⟨jc.1, h⟩).kind, jc.2)
    else if jc.1 = ops.length then .error (.commitOp, jc.2)
    else .ok (ops.foldl applyOp db)
  | none => .ok (ops.foldl applyOp db)

/-- Error result of `SetBlock`: a Postgres-classified error from some statement,
or a failure of the recovery `SynchronizeDB`. -/
inductive SBErr where
  | pg (k : OpKind) (c : PgCode)
  | syncErr
deriving DecidableEq, Repr

/-- Result of `SetBlock` over a (finite) oracle: committed, returned an error,
or still retrying when the oracle runs out — the code has no retry bound. -/
inductive SetBlockResult where
  | committed
  | failed (e : SBErr)
  | retrying
deriving DecidableEq, Repr

/-- `SQLDB.SetBlock` (pgsql_adapter.go lines 135-255).  Control flow embedded
from the source: log/logdet statement errors return directly; an upsert error
breaks to the handler, which — for `UndefinedTable`/`UndefinedColumn` — rolls
back, runs `SynchronizeDB` and calls `SetBlock` again with no retry counter;
any other error, and any commit error, is returned.  The attempt list feeds the
oracle of each successive transaction attempt. -/
def SetBlock (eventTables : List (String × SQLTable)) (data : EventData) (db : DBState) :
    List Attempt → SetBlockResult × DBState
  | [] => (.retrying, db)
  | a :: rest =>
    match runAttempt db (attemptOps eventTables data) a with
    | .ok db' => (.committed, db')
    | .error kc =>
      match kc.1 with
      | .upsert =>
        if kc.2 = .undefinedTable ∨ kc.2 = .undefinedColumn then
          if a.syncOk then SetBlock eventTables data db rest
          else (.failed .syncErr, db)
        else (.failed (.pg kc.1 kc.2), db)
      | _ => (.failed (.pg kc.1 kc.2), db)

/-- The row journal a committed batch appends, table by table in enumeration
order. -/
def batchRows (eventTables : List (String × SQLTable)) (data : EventData) :
    List (String × EventDataRow) :=
  eventTables.flatMap (fun p => (dataRowsFor data p.2.name).map (fun r => (Safe p.2.name, r)))

/-! ### Concrete instances used by counterexamples and witnesses -/

/-- A user column mapping the event field `a` (boolean, not primary). -/
def c6ColA : EventColumn :=
  { name := "cola", typ := "bool", primary := false, bytesToString := false }

/-- A user column mapping the event field `b` (address, primary). -/
def c6ColB : EventColumn :=
  { name := "colb", typ := "address", primary := true, bytesToString := false }

/-- The shared event signature of the two enumerations. -/
def c6Inputs : List EventInput :=
  [{ name := "a", typ := "bool", indexed := false },
   { name := "b", typ := "address", indexed := false }]

/-- A table spec whose column map is enumerated as `a` then `b`. -/
def c6DefFirst : EventDefinition :=
  { tableName := "Deals", filter := "LOG0 = 'Deals'", eventName := "Deal",
    inputs := c6Inputs, columns := [("a", c6ColA), ("b", c6ColB)] }

/-- The same table spec with the column map enumerated as `b` then `a`. -/
def c6DefSecond : EventDefinition :=
  { tableName := "Deals", filter := "LOG0 = 'Deals'", eventName := "Deal",
    inputs := c6Inputs, columns := [("b", c6ColB), ("a", c6ColA)] }

/-- The user columns `buildColumns` produces for the first enumeration: orders 5
and 6 in enumeration order. -/
def c6BuiltCols : List (String × SQLTableColumn) :=
  [("a", { name := "cola", sqlType := .bool, evmType := "bool", length := 0,
           primary := false, bytesToString := false, order := 5 }),
   ("b", { name := "colb", sqlType := .varchar, evmType := "address", length := 40,
           primary := true, bytesToString := false, order := 6 })]

/-- Order assigned to a user column of a parsed catalog, read through map lookups. -/
def userColOrder (r : Except String (List (String × SQLTable))) (tbl key : String) :
    Option Int :=
  match r with
  | .ok tables => (alLookup tables tbl).bind (fun t => (alLookup t.columns key).map (·.order))
  | .error _ => none

/-- The CREATE TABLE statement of the first parsed table, when parsing succeeded. -/
def firstTableDDL (schema : String) (r : Except String (List (String × SQLTable))) :
    Option String :=
  match r with
  | .ok ((_, t) :: _) => some (tableCreateStatement schema t)
  | _ => none

/-- First entry of the duplicated-table fixture
(`DuplicatedTableNameJSONConfFile`, src/unnamed/part_000 lines 218-297). -/
def dupSpecEntryOne : EventDefinition :=
  { tableName := "DUPLICATED", filter := "LOG0 = 'UserAccounts'",
    eventName := "UpdateUserAccount",
    inputs := [{ name := "userAddress", typ := "address", indexed := false }],
    columns :=
      [("userAddress",
        { name := "address", typ := "address", primary := true, bytesToString := false })] }

/-- Second entry of the duplicated-table fixture: the same table name with a
different event and column set. -/
def dupSpecEntryTwo : EventDefinition :=
  { tableName := "DUPLICATED", filter := "Log1Text = 'EVENT_TEST'",
    eventName := "UpdateTable",
    inputs := [{ name := "key", typ := "uint256", indexed := false }],
    columns :=
      [("key",
        { name := "index", typ := "uint256", primary := true, bytesToString := false })] }

/-- Number of tables in a successful parse result. -/
def parsedTableCount (r : Except String (List (String × SQLTable))) : Option Nat :=
  match r with
  | .ok tables => some tables.length
  | .error _ => none

/-- Filter of the parsed table stored under a key. -/
def parsedTableFilter (r : Except String (List (String × SQLTable))) (tbl : String) :
    Option String :=
  match r with
  | .ok tables => (alLookup tables tbl).map (·.filter)
  | .error _ => none

/-- A single declared column whose `order` is 2 — one more than the column
count, the off-by-one slot of `createTable`'s bounds check. -/
def c8BadColumn : SQLTableColumn :=
  { name := "badcol", sqlType := .varchar, evmType := "address", length := 40,
    primary := false, bytesToString := false, order := 2 }

/-- A table with one column and no primary key at all. -/
def c3NoPkTable : PTable :=
  { name := "t", columns := [{ name := "a", typ := "VARCHAR", length := 40, primary := false }] }

/-- A table whose only column is a primary key (every column primary). -/
def c3AllPkTable : PTable :=
  { name := "t2", columns := [{ name := "k", typ := "VARCHAR", length := 40, primary := true }] }

/-- A two-column table (one primary key, one plain column) used by witnesses. -/
def wUpsertTable : PTable :=
  { name := "acct",
    columns := [{ name := "addr", typ := "VARCHAR", length := 40, primary := true },
                { name := "bal", typ := "INTEGER", length := 0, primary := false }] }

/-- A minimal projection table for the writer fixtures. -/
def wTable : SQLTable := { name := "t", filter := "f", columns := [] }

/-- A one-table catalog for the writer fixtures. -/
def wTables : List (String × SQLTable) := [("map1", wTable)]

/-- A one-row batch at height 7 for the writer fixtures. -/
def wData : EventData := { block := "7", tables := [("t", [[("a", "1")]])] }

/-- The empty database state. -/
def wDb0 : DBState := { log := [], logdet := [], rows := [] }

/-- An attempt whose upsert (operation 2 of the fixture batch) fails with
`UndefinedTable`, with recovery synchronization succeeding. -/
def driftAttempt : Attempt := { failAt := some (2, .undefinedTable), syncOk := true }

/-- An attempt that commits. -/
def okAttempt : Attempt := { failAt := none, syncOk := true }

/-- An attempt whose very first operation (the `_bosmarmot_log` insert) fails with a
non-drift Postgres error. -/
def failAttempt : Attempt := { failAt := some (0, .otherCode), syncOk := true }

/-- The database state the fixture batch produces when committed onto `wDb0`. -/
def wDbAfter : DBState :=
  { log := [{ id := 1, registers := 1, height := "7" }],
    logdet := [{ id := 1, tblname := "t", tblmap := "map1", registers := 1 }],
    rows := [("t", [("a", "1")])] }

/-! ## Lemmas and claim theorems -/

/-- A non-empty pattern that matches forces its head onto the scanned list. -/
lemma listPre_head {a : Char} {p l : List Char} (h : listPre (a :: p) l = true) :
    ∃ rest, l = a :: rest ∧ listPre p rest = true := by
  cases l with
  | nil => simp [listPre] at h
  | cons c rest =>
    simp only [listPre, Bool.and_eq_true, beq_iff_eq] at h
    exact ⟨rest, by rw [h.1], h.2⟩

/-- Two patterns with different head characters cannot both match. -/
lemma listPre_false_of_head_ne {a b : Char} {p q : List Char} {l : List Char}
    (hne : b ≠ a) (h : listPre (a :: p) l = true) :
    listPre (b :: q) l = false := by
  obtain ⟨rest, hr, _⟩ := listPre_head h
  rw [hr]
  simp only [listPre, Bool.and_eq_false_iff]
  left
  simp [hne]

/-- Claim C9: for every schema, table name, column name and generic type, the
Postgres adapter's alter-column builder emits the statement
`ALTER TABLE <schema>.<tableName> ADD COLUMN <tableName> <type>;` — the table
name occupies the column-name position (it coincides with the correct-form
statement only with `columnName := tableName`) and the output does not depend
on the `columnName` argument at all. -/
theorem c9_alter_column_query_bug (schema tableName columnName sqlGenericType : String) :
    getAlterColumnQuery schema tableName columnName sqlGenericType =
      correctAlterColumnQuery schema tableName tableName sqlGenericType ∧
    (∀ other : String,
      getAlterColumnQuery schema tableName columnName sqlGenericType =
        getAlterColumnQuery schema tableName other sqlGenericType) :=
  ⟨rfl, fun _ => rfl⟩

/-- Claim C5 counterexample: `intx` is not a known EVM type signature (it is not
`intN` for a digit run `N`), yet `getSQLType` accepts it by prefix matching and
returns INT instead of the claimed unknown-type error. -/
theorem c5_counterexample :
    claimKnownEvmSignature "intx" = false ∧
    getSQLType "intx" false false = .ok (.int, 0) := by decide

/-- Claim C5 (amended): `address` maps to VARCHAR(40), `bool` to BOOL, `string`
to TEXT; every signature *starting with* `bytes` maps to BYTEA (VARCHAR(40)
under bytes_to_string), every remaining signature starting with `int` to INT
when its first digit run is ≤ 32 and NUMERIC otherwise, every one starting with
`uint` to INT when ≤ 16 and NUMERIC otherwise; exactly the signatures matching
none of these prefix cases fail with the unknown-type error. -/
theorem c5_type_mapper_amended (s : String) (arr bts : Bool) :
    getSQLType "address" arr bts = .ok (.varchar, 40) ∧
    getSQLType "bool" arr bts = .ok (.bool, 0) ∧
    getSQLType "string" arr bts = .ok (.text, 0) ∧
    (strHasPre "bytes" s = true →
      getSQLType s arr bts = (if bts then .ok (.varchar, 40) else .ok (.bytea, 0))) ∧
    (strHasPre "int" s = true →
      getSQLType s arr bts = .ok (if findNumber s ≤ 32 then .int else .numeric, 0)) ∧
    (strHasPre "uint" s = true →
      getSQLType s arr bts = .ok (if findNumber s ≤ 16 then .int else .numeric, 0)) ∧
    (s ≠ "address" → s ≠ "bool" → s ≠ "string" → strHasPre "bytes" s = false →
      strHasPre "int" s = false → strHasPre "uint" s = false →
      getSQLType s arr bts = .error ("Don't know how to map evmSignature: " ++ s ++ " ")) := by
  refine ⟨rfl, rfl, rfl, ?_, ?_, ?_, ?_⟩
  · intro h
    have ha : s ≠ "address" := fun e => by rw [e] at h; exact absurd h (by decide)
    have hb : s ≠ "bool" := fun e => by rw [e] at h; exact absurd h (by decide)
    simp only [getSQLType, EventInputTypeAddress, EventInputTypeBool, EventInputTypeBytes,
      if_neg ha, if_neg hb, h, if_true]
  · intro h
    have h' : listPre ('i' :: ['n', 't']) s.data = true := h
    have ha : s ≠ "address" := fun e => by rw [e] at h; exact absurd h (by decide)
    have hb : s ≠ "bool" := fun e => by rw [e] at h; exact absurd h (by decide)
    have hs : s ≠ "string" := fun e => by rw [e] at h; exact absurd h (by decide)
    have hby : strHasPre "bytes" s = false :=
      listPre_false_of_head_ne (by decide) h'
    simp only [getSQLType, EventInputTypeAddress, EventInputTypeBool, EventInputTypeBytes,
      EventInputTypeString, EventInputTypeInt,
      if_neg ha, if_neg hb, if_neg hs, hby, h, if_true, Bool.false_eq_true, if_false]
    by_cases hn : findNumber s ≤ 32 <;> simp [hn]
  · intro h
    have h' : listPre ('u' :: ['i', 'n', 't']) s.data = true := h
    have ha : s ≠ "address" := fun e => by rw [e] at h; exact absurd h (by decide)
    have hb : s ≠ "bool" := fun e => by rw [e] at h; exact absurd h (by decide)
    have hs : s ≠ "string" := fun e => by rw [e] at h; exact absurd h (by decide)
    have hby : strHasPre "bytes" s = false :=
      listPre_false_of_head_ne (by decide) h'
    have hint : strHasPre "int" s = false :=
      listPre_false_of_head_ne (by decide) h'
    simp only [getSQLType, EventInputTypeAddress, EventInputTypeBool, EventInputTypeBytes,
      EventInputTypeString, EventInputTypeInt, EventInputTypeUInt,
      if_neg ha, if_neg hb, if_neg hs, hby, hint, h, if_true, Bool.false_eq_true, if_false]
    by_cases hn : findNumber s ≤ 16 <;> simp [hn]
  · intro ha hb hs hby hint huint
    simp only [getSQLType, EventInputTypeAddress, EventInputTypeBool, EventInputTypeBytes,
      EventInputTypeString, EventInputTypeInt, EventInputTypeUInt,
      if_neg ha, if_neg hb, if_neg hs, hby, hint, huint, Bool.false_eq_true, if_false]

/-- Witness for the amended C5 theorem at the signature `int256` with
`bytes_to_string` off. -/
theorem c5_type_mapper_amended_witness :
    strHasPre "int" "int256" = true ∧
    getSQLType "int256" false false =
      .ok (if findNumber "int256" ≤ 32 then .int else .numeric, 0) :=
  ⟨by decide, (c5_type_mapper_amended "int256" false false).2.2.2.2.1 (by decide)⟩

/-- Claim C8 (code bug): a table with a single column of order 2 — an order
greater than the column count — passes the `Order-1 > columns` bounds check
(`1 > 1` is false) and the loop then reads `sortedColumns[1]` of a length-1
slice: an index-out-of-range panic instead of the claimed table-definition
error. -/
theorem c8_order_validation_out_of_bounds :
    [c8BadColumn].length = 1 ∧ c8BadColumn.order = 2 ∧
    sortColumns [c8BadColumn] = .panicOOB 1 1 := by decide

/-- Claim C7 (code bug): two spec entries with the identical table name
`DUPLICATED` parse successfully — the second map assignment silently overwrites
the first, so the catalog keeps exactly one table carrying the second entry's
filter — where the spec and the repo's own parser test demand a
duplicated-table error. -/
theorem c7_duplicate_table_silently_overwritten :
    strLower dupSpecEntryOne.tableName = strLower dupSpecEntryTwo.tableName ∧
    dupSpecEntryOne ≠ dupSpecEntryTwo ∧
    parsedTableCount (NewParserFromEventSpec [dupSpecEntryOne, dupSpecEntryTwo]) = some 1 ∧
    parsedTableFilter (NewParserFromEventSpec [dupSpecEntryOne, dupSpecEntryTwo]) "DUPLICATED" =
      some dupSpecEntryTwo.filter := by decide

/-- Claim C6 counterexample: the same table spec loaded with two different
enumeration orders of its column map — permutations of each other, as Go map
iteration may produce either — yields catalogs that differ (`cola` gets order 5
in one run and 6 in the other) and CREATE TABLE statements that are not
byte-identical. -/
theorem c6_counterexample :
    c6DefFirst.tableName = c6DefSecond.tableName ∧
    c6DefFirst.filter = c6DefSecond.filter ∧
    c6DefFirst.inputs = c6DefSecond.inputs ∧
    c6DefFirst.columns.Perm c6DefSecond.columns ∧
    userColOrder (NewParserFromEventSpec [c6DefFirst]) "Deals" "a" = some 5 ∧
    userColOrder (NewParserFromEventSpec [c6DefSecond]) "Deals" "a" = some 6 ∧
    firstTableDDL "vent" (NewParserFromEventSpec [c6DefFirst]) ≠
      firstTableDDL "vent" (NewParserFromEventSpec [c6DefSecond]) := by
  refine ⟨rfl, rfl, rfl, ?_, by decide, by decide, by decide⟩
  decide

/-- Claim C3 counterexample: a table with one non-primary column has no primary
key, yet its upsert statement ends in DO UPDATE (the claim demands
DO NOTHING when no PK exists); a table whose only column is a primary key has a
PK, yet its statement ends in DO NOTHING (the claim demands an update clause
when PKs exist).  The builder actually switches on the existence of
non-primary columns. -/
theorem c3_counterexample :
    (c3NoPkTable.columns.all (fun c => !c.primary)) = true ∧
    (getUpsertQuery "vent" c3NoPkTable).query =
      "INSERT INTO vent.t (a) VALUES ($1) ON CONFLICT ON CONSTRAINT t_pkey DO UPDATE SET a = $2;" ∧
    (c3AllPkTable.columns.all (fun c => c.primary)) = true ∧
    c3AllPkTable.columns ≠ [] ∧
    (getUpsertQuery "vent" c3AllPkTable).query =
      "INSERT INTO vent.t2 (k) VALUES ($1) ON CONFLICT ON CONSTRAINT t2_pkey DO NOTHING;" := by
  decide

/-- Claim C2 counterexample: an upsert drift failure (`UndefinedTable` at
operation 2, the row upsert) occurring twice in a row is not fatal — the writer
re-synchronizes and retries each time, and a third attempt commits, so the
batch is retried more than once. -/
theorem c2_counterexample :
    runAttempt wDb0 (attemptOps wTables wData) driftAttempt =
      .error (OpKind.upsert, PgCode.undefinedTable) ∧
    (SetBlock wTables wData wDb0 [driftAttempt, driftAttempt, okAttempt]).1 =
      SetBlockResult.committed := by decide

lemma getUpsertQueryGo_layout (cols : Nat) :
    ∀ (cs : List PColumn) (colAcc insAcc updAcc : String) (nKeys i : Nat)
      (layout : List (String × UpsertColumn)),
      (getUpsertQueryGo cols cs colAcc insAcc updAcc nKeys i layout).2.2.2 =
        (nKeys + (cs.filter (fun c => !c.primary)).length,
         (layoutEntries cols nKeys i cs).foldl (fun m p => alInsert m p.1 p.2) layout) := by
  intro cs
  induction cs with
  | nil => intro colAcc insAcc updAcc nKeys i layout; simp [getUpsertQueryGo, layoutEntries]
  | cons tc rest ih =>
    intro colAcc insAcc updAcc nKeys i layout
    cases hp : tc.primary
    · simp only [getUpsertQueryGo, hp, Bool.false_eq_true, if_false, ih, layoutEntries,
        List.foldl_cons, List.filter_cons, Bool.not_false, if_true, Nat.add_sub_cancel,
        Prod.mk.injEq, List.length_cons]
      exact ⟨by omega, trivial⟩
    · simp only [getUpsertQueryGo, hp, if_true, ih, layoutEntries, List.foldl_cons,
        List.filter_cons, Bool.not_true, Bool.false_eq_true, if_false, Nat.add_sub_cancel]

lemma layoutEntries_keys (cols : Nat) :
    ∀ (cs : List PColumn) (nKeys i : Nat),
      (layoutEntries cols nKeys i cs).map Prod.fst = cs.map (fun c => Safe c.name) := by
  intro cs
  induction cs with
  | nil => intro nKeys i; simp [layoutEntries]
  | cons tc rest ih =>
    intro nKeys i
    cases hp : tc.primary <;>
      simp [layoutEntries, hp, ih]

lemma layoutEntries_mem_props (cols : Nat) :
    ∀ (cs : List PColumn) (nKeys i : Nat) (q : String × UpsertColumn),
      q ∈ layoutEntries cols nKeys i cs →
      (i ≤ q.2.insPosition ∧ q.2.insPosition < i + cs.length) ∧
      (q.2.updPosition = 0 ∨
        (cols + nKeys ≤ q.2.updPosition ∧
         q.2.updPosition < cols + nKeys + (cs.filter (fun c => !c.primary)).length)) := by
  intro cs
  induction cs with
  | nil => intro nKeys i q hq; simp [layoutEntries] at hq
  | cons tc rest ih =>
    intro nKeys i q hq
    cases hp : tc.primary
    · rw [layoutEntries] at hq
      rw [hp] at hq
      simp only [Bool.false_eq_true, if_false] at hq
      rcases List.mem_cons.mp hq with he | ht
      · subst he
        refine ⟨⟨le_refl _, by simp⟩, Or.inr ⟨le_refl _, ?_⟩⟩
        simp [List.filter_cons, hp]
      · have h := ih (nKeys + 1) (i + 1) q ht
        refine ⟨⟨by omega, ?_⟩, ?_⟩
        · have := h.1.2; simp only [List.length_cons]; omega
        · rcases h.2 with h2 | h2
          · exact Or.inl h2
          · refine Or.inr ⟨by omega, ?_⟩
            have h3 := h2.2
            simp only [List.filter_cons, hp, Bool.not_false, if_true, List.length_cons]
            omega
    · rw [layoutEntries] at hq
      rw [hp] at hq
      simp only [if_true] at hq
      rcases List.mem_cons.mp hq with he | ht
      · subst he
        exact ⟨⟨le_refl _, by simp⟩, Or.inl rfl⟩
      · have h := ih nKeys (i + 1) q ht
        refine ⟨⟨by omega, ?_⟩, ?_⟩
        · have := h.1.2; simp only [List.length_cons]; omega
        · rcases h.2 with h2 | h2
          · exact Or.inl h2
          · refine Or.inr ⟨h2.1, ?_⟩
            have h3 := h2.2
            simp only [List.filter_cons, hp, Bool.not_true, Bool.false_eq_true, if_false]
            omega

lemma alInsert_mem {α : Type} {p : String × α} {l : List (String × α)} {k : String} {v : α}
    (h : p ∈ alInsert l k v) : p ∈ l ∨ p = (k, v) := by
  unfold alInsert at h
  split at h
  · rcases List.mem_map.mp h with ⟨q, hq, he⟩
    by_cases hk : q.1 = k
    · rw [if_pos hk] at he; exact Or.inr he.symm
    · rw [if_neg hk] at he; exact Or.inl (he ▸ hq)
  · rcases List.mem_append.mp h with hl | hr
    · exact Or.inl hl
    · exact Or.inr (List.mem_singleton.mp hr)

lemma alInsert_of_not_mem {α : Type} {l : List (String × α)} {k : String} {v : α}
    (h : ∀ q ∈ l, q.1 ≠ k) : alInsert l k v = l ++ [(k, v)] := by
  unfold alInsert
  rw [if_neg]
  simp only [List.any_eq_true, decide_eq_true_eq, not_exists]
  intro q hq
  exact h q hq.1 hq.2

lemma foldl_alInsert_eq_append {α : Type} :
    ∀ (l acc : List (String × α)),
      (∀ q ∈ acc, ∀ r ∈ l, q.1 ≠ r.1) → (l.map Prod.fst).Nodup →
      List.foldl (fun m p => alInsert m p.1 p.2) acc l = acc ++ l := by
  intro l
  induction l with
  | nil => intro acc _ _; simp
  | cons e rest ih =>
    intro acc hdisj hnodup
    have h1 : alInsert acc e.1 e.2 = acc ++ [e] := by
      rw [alInsert_of_not_mem (fun q hq => hdisj q hq e (List.mem_cons_self _ _))]
    have hn : e.1 ∉ rest.map Prod.fst ∧ (rest.map Prod.fst).Nodup := by
      rw [List.map_cons] at hnodup
      exact List.nodup_cons.mp hnodup
    simp only [List.foldl_cons, h1]
    rw [ih (acc ++ [e]) ?_ hn.2]
    · simp
    · intro q hq r hr
      rcases List.mem_append.mp hq with hqa | hqe
      · exact hdisj q hqa r (List.mem_cons_of_mem _ hr)
      · have : q = e := List.mem_singleton.mp hqe
        subst this
        intro he
        exact hn.1 (he ▸ List.mem_map_of_mem Prod.fst hr)

lemma foldl_alInsert_mem {α : Type} :
    ∀ (l acc : List (String × α)) (p : String × α),
      p ∈ List.foldl (fun m q => alInsert m q.1 q.2) acc l → p ∈ acc ∨ p ∈ l := by
  intro l
  induction l with
  | nil => intro acc p h; exact Or.inl h
  | cons e rest ih =>
    intro acc p h
    simp only [List.foldl_cons] at h
    rcases ih _ p h with ha | hr
    · rcases alInsert_mem ha with h1 | h2
      · exact Or.inl h1
      · exact Or.inr (h2 ▸ List.mem_cons_self _ _)
    · exact Or.inr (List.mem_cons_of_mem _ hr)

lemma alLookup_mem {α : Type} :
    ∀ {l : List (String × α)} {k : String} {v : α}, alLookup l k = some v → (k, v) ∈ l := by
  intro l
  induction l with
  | nil => intro k v h; simp [alLookup] at h
  | cons e rest ih =>
    intro k v h
    rw [alLookup] at h
    split at h
    · rename_i he
      rw [Option.some_inj] at h
      subst h
      subst he
      exact List.mem_cons_self _ _
    · exact List.mem_cons_of_mem _ (ih h)

lemma layoutEntries_lookup (cols : Nat) (hcols : 0 < cols) :
    ∀ (cs : List PColumn) (nKeys i : Nat) (c : PColumn), c ∈ cs →
      ((cs.map fun x => Safe x.name).Nodup) →
      ∃ u, alLookup (layoutEntries cols nKeys i cs) (Safe c.name) = some u ∧
        i ≤ u.insPosition ∧ u.insPosition < i + cs.length ∧
        (u.updPosition = 0 ↔ c.primary = true) ∧
        (c.primary = false → cols + nKeys ≤ u.updPosition ∧
          (Safe c.name ++ " = $" ++ toString (u.updPosition + 1)) ∈ updEntries cols nKeys cs) := by
  intro cs
  induction cs with
  | nil => intro nKeys i c hc; exact absurd hc (List.not_mem_nil c)
  | cons tc rest ih =>
    intro nKeys i c hc hnodup
    have hn : Safe tc.name ∉ rest.map (fun x => Safe x.name) ∧
        (rest.map (fun x => Safe x.name)).Nodup := by
      rw [List.map_cons] at hnodup
      exact List.nodup_cons.mp hnodup
    rcases List.mem_cons.mp hc with he | ht
    · subst he
      cases hp : c.primary
      · refine ⟨{ isNumeric := IsNumeric c.typ, insPosition := i, updPosition := cols + nKeys },
          ?_, le_refl _, by simp, ?_, ?_⟩
        · rw [layoutEntries, hp]
          simp only [Bool.false_eq_true, if_false]
          rw [alLookup, if_pos rfl]
        · constructor
          · intro h; simp at h; omega
          · intro h; simp at h
        · intro _
          refine ⟨le_refl _, ?_⟩
          rw [updEntries, hp]
          simp only [Bool.false_eq_true, if_false]
          exact List.mem_cons_self _ _
      · refine ⟨{ isNumeric := IsNumeric c.typ, insPosition := i, updPosition := 0 },
          ?_, le_refl _, by simp, by simp [hp], ?_⟩
        · rw [layoutEntries, hp]
          simp only [if_true]
          rw [alLookup, if_pos rfl]
        · intro h; simp at h
    · have hkey : Safe tc.name ≠ Safe c.name := by
        intro he
        exact hn.1 (he ▸ List.mem_map.mpr ⟨c, ht, rfl⟩)
      cases hp : tc.primary
      · obtain ⟨u, hu, h1, h2, h3, h4⟩ := ih (nKeys + 1) (i + 1) c ht hn.2
        refine ⟨u, ?_, by omega, ?_, h3, ?_⟩
        · rw [layoutEntries, hp]
          simp only [Bool.false_eq_true, if_false]
          rw [alLookup, if_neg hkey]
          exact hu
        · simp only [List.length_cons]; omega
        · intro hcp
          obtain ⟨hb, hm⟩ := h4 hcp
          refine ⟨by omega, ?_⟩
          rw [updEntries, hp]
          simp only [Bool.false_eq_true, if_false]
          exact List.mem_cons_of_mem _ hm
      · obtain ⟨u, hu, h1, h2, h3, h4⟩ := ih nKeys (i + 1) c ht hn.2
        refine ⟨u, ?_, by omega, ?_, h3, ?_⟩
        · rw [layoutEntries, hp]
          simp only [if_true]
          rw [alLookup, if_neg hkey]
          exact hu
        · simp only [List.length_cons]; omega
        · intro hcp
          obtain ⟨hb, hm⟩ := h4 hcp
          refine ⟨hb, ?_⟩
          rw [updEntries, hp]
          simpa using hm

lemma layoutEntries_mem_inv (cols : Nat) :
    ∀ (cs : List PColumn) (nKeys i : Nat) (q : String × UpsertColumn),
      q ∈ layoutEntries cols nKeys i cs →
      ∃ c, c ∈ cs ∧ q.1 = Safe c.name ∧
        (c.primary = true → q.2.updPosition = 0) ∧
        (c.primary = false → cols + nKeys ≤ q.2.updPosition) := by
  intro cs
  induction cs with
  | nil => intro nKeys i q hq; simp [layoutEntries] at hq
  | cons tc rest ih =>
    intro nKeys i q hq
    cases hp : tc.primary
    · rw [layoutEntries, hp] at hq
      simp only [Bool.false_eq_true, if_false] at hq
      rcases List.mem_cons.mp hq with he | ht
      · subst he
        exact ⟨tc, List.mem_cons_self _ _, rfl,
          fun h => absurd (hp.symm.trans h) (by decide), fun _ => le_refl _⟩
      · obtain ⟨c, hc, h1, h2, h3⟩ := ih (nKeys + 1) (i + 1) q ht
        exact ⟨c, List.mem_cons_of_mem _ hc, h1, h2, fun h => by have := h3 h; omega⟩
    · rw [layoutEntries, hp] at hq
      simp only [if_true] at hq
      rcases List.mem_cons.mp hq with he | ht
      · subst he
        exact ⟨tc, List.mem_cons_self _ _, rfl, fun _ => rfl,
          fun h => absurd (hp.symm.trans h) (by decide)⟩
      · obtain ⟨c, hc, h1, h2, h3⟩ := ih nKeys (i + 1) q ht
        exact ⟨c, List.mem_cons_of_mem _ hc, h1, h2, h3⟩

lemma getUpsertQuery_columns_eq (schema : String) (table : PTable)
    (hnodup : (table.columns.map (fun c => Safe c.name)).Nodup) :
    (getUpsertQuery schema table).columns =
      layoutEntries table.columns.length 0 0 table.columns := by
  have hlay : (getUpsertQuery schema table).columns =
      ((getUpsertQueryGo table.columns.length table.columns "" "" "" 0 0 []).2.2.2).2 := rfl
  rw [getUpsertQueryGo_layout] at hlay
  rw [hlay]
  exact foldl_alInsert_eq_append _ [] (by intro q hq; exact absurd hq (List.not_mem_nil q))
    (by rw [layoutEntries_keys]; exact hnodup)

/-- Claim C10: in every layout built by `GetUpsertQuery` the update position is
either 0 or at least the total column count, and — for a table with distinct
sanitized column names, hence in particular non-empty wherever a column exists —
a column's update position is 0 exactly when the column is a primary key, with
every non-primary column's update position at least the column count.  This is
the encoding `getUpsertParams` relies on to tell primary-key columns apart. -/
theorem c10_upd_position_encoding (schema : String) (table : PTable)
    (hnodup : (table.columns.map (fun c => Safe c.name)).Nodup) :
    (∀ p ∈ (getUpsertQuery schema table).columns,
      p.2.updPosition = 0 ∨ table.columns.length ≤ p.2.updPosition) ∧
    (∀ c ∈ table.columns, ∃ u,
      alLookup (getUpsertQuery schema table).columns (Safe c.name) = some u ∧
      (u.updPosition = 0 ↔ c.primary = true) ∧
      (c.primary = false → table.columns.length ≤ u.updPosition)) := by
  rw [getUpsertQuery_columns_eq schema table hnodup]
  constructor
  · intro p hp
    rcases (layoutEntries_mem_props _ _ _ _ p hp).2 with h | h
    · exact Or.inl h
    · exact Or.inr (by omega)
  · intro c hc
    have hcols : 0 < table.columns.length :=
      List.length_pos.mpr (List.ne_nil_of_mem hc)
    obtain ⟨u, hu, _, _, h3, h4⟩ :=
      layoutEntries_lookup table.columns.length hcols table.columns 0 0 c hc hnodup
    exact ⟨u, hu, h3, fun h => by have := (h4 h).1; omega⟩

/-- Witness for C10 at the two-column fixture table. -/
theorem c10_witness :
    (∀ p ∈ (getUpsertQuery "vent" wUpsertTable).columns,
      p.2.updPosition = 0 ∨ wUpsertTable.columns.length ≤ p.2.updPosition) ∧
    (∀ c ∈ wUpsertTable.columns, ∃ u,
      alLookup (getUpsertQuery "vent" wUpsertTable).columns (Safe c.name) = some u ∧
      (u.updPosition = 0 ↔ c.primary = true) ∧
      (c.primary = false → wUpsertTable.columns.length ≤ u.updPosition)) :=
  c10_upd_position_encoding "vent" wUpsertTable (by decide)

lemma strAppend_ne_empty_right {x y : String} (hy : y ≠ "") : x ++ y ≠ "" := by
  intro h
  have hd : (x ++ y).data = ([] : List Char) := by rw [h]
  rw [String.data_append] at hd
  rcases List.append_eq_nil.mp hd with ⟨_, h2⟩
  exact hy (String.ext (by rw [h2]))

lemma strAppend_ne_empty_left {x y : String} (hx : x ≠ "") : x ++ y ≠ "" := by
  intro h
  have hd : (x ++ y).data = ([] : List Char) := by rw [h]
  rw [String.data_append] at hd
  rcases List.append_eq_nil.mp hd with ⟨h1, _⟩
  exact hx (String.ext (by rw [h1]))

lemma joinFrom_cons (acc a : String) (l : List String) :
    joinFrom acc (a :: l) = joinFrom ((if acc = "" then acc else acc ++ ", ") ++ a) l := rfl

lemma updEntries_cons_primary {c : PColumn} (cols nKeys : Nat) (rest : List PColumn)
    (hp : c.primary = true) :
    updEntries cols nKeys (c :: rest) = updEntries cols nKeys rest := by
  rw [updEntries, if_pos hp]

lemma updEntries_cons_nonpk {c : PColumn} (cols nKeys : Nat) (rest : List PColumn)
    (hp : c.primary = false) :
    updEntries cols nKeys (c :: rest) =
      (Safe c.name ++ " = $" ++ toString (cols + nKeys + 1)) :: updEntries cols (nKeys + 1) rest := by
  rw [updEntries, if_neg (by rw [hp]; exact Bool.false_ne_true)]

lemma getUpsertQueryGo_strings (cols : Nat) :
    ∀ (cs : List PColumn) (colAcc insAcc updAcc : String) (nKeys i : Nat)
      (layout : List (String × UpsertColumn)),
      (∀ c ∈ cs, Safe c.name ≠ "") →
      (colAcc = "" ↔ insAcc = "") →
      (getUpsertQueryGo cols cs colAcc insAcc updAcc nKeys i layout).1 =
          joinFrom colAcc (cs.map (fun c => Safe c.name)) ∧
      (getUpsertQueryGo cols cs colAcc insAcc updAcc nKeys i layout).2.1 =
          joinFrom insAcc (insEntries i cs.length) ∧
      (getUpsertQueryGo cols cs colAcc insAcc updAcc nKeys i layout).2.2.1 =
          joinFrom updAcc (updEntries cols nKeys cs) := by
  intro cs
  induction cs with
  | nil =>
    intro colAcc insAcc updAcc nKeys i layout _ _
    exact ⟨rfl, rfl, rfl⟩
  | cons tc rest ih =>
    intro colAcc insAcc updAcc nKeys i layout hne hiff
    have hnc : Safe tc.name ≠ "" := hne tc (List.mem_cons_self _ _)
    have hnrest : ∀ c ∈ rest, Safe c.name ≠ "" :=
      fun c hc => hne c (List.mem_cons_of_mem _ hc)
    have hcol' : (if colAcc = "" then colAcc else colAcc ++ ", ") ++ Safe tc.name ≠ "" :=
      strAppend_ne_empty_right hnc
    have hins' :
        ((if colAcc = "" then insAcc else insAcc ++ ", ") ++ "$") ++ toString (i + 1) ≠ "" :=
      strAppend_ne_empty_left (strAppend_ne_empty_right (by decide))
    have hiff' :
        ((if colAcc = "" then colAcc else colAcc ++ ", ") ++ Safe tc.name = "") ↔
        (((if colAcc = "" then insAcc else insAcc ++ ", ") ++ "$") ++ toString (i + 1) = "") :=
      ⟨fun h => absurd h hcol', fun h => absurd h hins'⟩
    have hguard :
        (if colAcc = "" then insAcc else insAcc ++ ", ") =
        (if insAcc = "" then insAcc else insAcc ++ ", ") := by
      by_cases hc : colAcc = ""
      · rw [if_pos hc, if_pos (hiff.mp hc), hiff.mp hc]
      · rw [if_neg hc, if_neg (fun hi => hc (hiff.mpr hi))]
    cases hp : tc.primary
    · have h := ih
        ((if colAcc = "" then colAcc else colAcc ++ ", ") ++ Safe tc.name)
        (((if colAcc = "" then insAcc else insAcc ++ ", ") ++ "$") ++ toString (i + 1))
        ((if updAcc = "" then updAcc else updAcc ++ ", ") ++ Safe tc.name ++ " = $" ++
          toString (cols + nKeys + 1))
        (nKeys + 1) (i + 1) (alInsert layout (Safe tc.name)
          { isNumeric := IsNumeric tc.typ, insPosition := i + 1 - 1, updPosition := cols + nKeys })
        hnrest hiff'
      simp only [getUpsertQueryGo, hp, Bool.false_eq_true, if_false]
      refine ⟨?_, ?_, ?_⟩
      · rw [h.1, List.map_cons, joinFrom_cons]
      · rw [h.2.1, List.length_cons, insEntries, joinFrom_cons, hguard, String.append_assoc]
      · rw [h.2.2, updEntries_cons_nonpk cols nKeys rest hp, joinFrom_cons]
        simp [String.append_assoc]
    · have h := ih
        ((if colAcc = "" then colAcc else colAcc ++ ", ") ++ Safe tc.name)
        (((if colAcc = "" then insAcc else insAcc ++ ", ") ++ "$") ++ toString (i + 1))
        updAcc nKeys (i + 1) (alInsert layout (Safe tc.name)
          { isNumeric := IsNumeric tc.typ, insPosition := i + 1 - 1, updPosition := 0 })
        hnrest hiff'
      simp only [getUpsertQueryGo, hp, if_true]
      refine ⟨?_, ?_, ?_⟩
      · rw [h.1, List.map_cons, joinFrom_cons]
      · rw [h.2.1, List.length_cons, insEntries, joinFrom_cons, hguard, String.append_assoc]
      · rw [h.2.2, updEntries_cons_primary cols nKeys rest hp]

/-- Claim C3 (amended): for every table whose sanitized column names are
non-empty, the upsert statement ends in an ON-CONFLICT clause updating every
non-primary-key column exactly when the table has at least one NON-primary-key
column, and is ON-CONFLICT-DO-NOTHING exactly when every column is a primary
key; the parameter count is columns + non-PK columns, and (for distinct names)
the layout maps each column to its 0-based insert parameter position and, for
non-PK columns, to the update parameter slot `$ (updPosition+1)` appearing in
the DO UPDATE list. -/
theorem c3_upsert_query_amended (schema : String) (table : PTable)
    (hname : ∀ c ∈ table.columns, Safe c.name ≠ "") :
    (getUpsertQuery schema table).length =
      table.columns.length + (table.columns.filter (fun c => !c.primary)).length ∧
    ((table.columns.filter (fun c => !c.primary)).length ≠ 0 →
      (getUpsertQuery schema table).query =
        "INSERT INTO " ++ schema ++ "." ++ Safe table.name ++ " (" ++
          commaJoin (table.columns.map (fun c => Safe c.name)) ++ ") VALUES (" ++
          commaJoin (insEntries 0 table.columns.length) ++ ") " ++
          ("ON CONFLICT ON CONSTRAINT " ++ Safe table.name ++ "_pkey DO UPDATE SET " ++
            commaJoin (updEntries table.columns.length 0 table.columns)) ++ ";") ∧
    ((table.columns.filter (fun c => !c.primary)).length = 0 →
      (getUpsertQuery schema table).query =
        "INSERT INTO " ++ schema ++ "." ++ Safe table.name ++ " (" ++
          commaJoin (table.columns.map (fun c => Safe c.name)) ++ ") VALUES (" ++
          commaJoin (insEntries 0 table.columns.length) ++ ") " ++
          ("ON CONFLICT ON CONSTRAINT " ++ Safe table.name ++ "_pkey DO NOTHING") ++ ";") ∧
    ((table.columns.map (fun c => Safe c.name)).Nodup →
      ∀ c ∈ table.columns, ∃ u,
        alLookup (getUpsertQuery schema table).columns (Safe c.name) = some u ∧
        u.insPosition < table.columns.length ∧
        (c.primary = true → u.updPosition = 0) ∧
        (c.primary = false →
          (Safe c.name ++ " = $" ++ toString (u.updPosition + 1)) ∈
            updEntries table.columns.length 0 table.columns)) := by
  have hstr := getUpsertQueryGo_strings table.columns.length table.columns "" "" "" 0 0 []
    hname Iff.rfl
  have hlay := getUpsertQueryGo_layout table.columns.length table.columns "" "" "" 0 0 []
  have hcnt : (getUpsertQueryGo table.columns.length table.columns "" "" "" 0 0 []).2.2.2.1 =
      (table.columns.filter (fun c => !c.primary)).length := by
    rw [show (getUpsertQueryGo table.columns.length table.columns "" "" "" 0 0 []).2.2.2.1 =
        ((getUpsertQueryGo table.columns.length table.columns "" "" "" 0 0 []).2.2.2).1 from rfl,
      hlay]
    simp
  refine ⟨?_, ?_, ?_, ?_⟩
  · show table.columns.length +
        (getUpsertQueryGo table.columns.length table.columns "" "" "" 0 0 []).2.2.2.1 = _
    rw [hcnt]
  · intro hk
    show "INSERT INTO " ++ schema ++ "." ++ Safe table.name ++ " (" ++
        (getUpsertQueryGo table.columns.length table.columns "" "" "" 0 0 []).1 ++
        ") VALUES (" ++
        (getUpsertQueryGo table.columns.length table.columns "" "" "" 0 0 []).2.1 ++ ") " ++
        (if (getUpsertQueryGo table.columns.length table.columns "" "" "" 0 0 []).2.2.2.1 ≠ 0 then
          "ON CONFLICT ON CONSTRAINT " ++ Safe table.name ++ "_pkey DO UPDATE SET " ++
            (getUpsertQueryGo table.columns.length table.columns "" "" "" 0 0 []).2.2.1
         else "ON CONFLICT ON CONSTRAINT " ++ Safe table.name ++ "_pkey DO NOTHING") ++ ";" = _
    rw [hstr.1, hstr.2.1, hstr.2.2, hcnt, if_pos hk]
    rfl
  · intro hk
    show "INSERT INTO " ++ schema ++ "." ++ Safe table.name ++ " (" ++
        (getUpsertQueryGo table.columns.length table.columns "" "" "" 0 0 []).1 ++
        ") VALUES (" ++
        (getUpsertQueryGo table.columns.length table.columns "" "" "" 0 0 []).2.1 ++ ") " ++
        (if (getUpsertQueryGo table.columns.length table.columns "" "" "" 0 0 []).2.2.2.1 ≠ 0 then
          "ON CONFLICT ON CONSTRAINT " ++ Safe table.name ++ "_pkey DO UPDATE SET " ++
            (getUpsertQueryGo table.columns.length table.columns "" "" "" 0 0 []).2.2.1
         else "ON CONFLICT ON CONSTRAINT " ++ Safe table.name ++ "_pkey DO NOTHING") ++ ";" = _
    rw [hstr.1, hstr.2.1, hcnt, if_neg (by rw [hk]; exact fun h => h rfl)]
    rfl
  · intro hnodup c hc
    have hcols : 0 < table.columns.length := List.length_pos.mpr (List.ne_nil_of_mem hc)
    rw [getUpsertQuery_columns_eq schema table hnodup]
    obtain ⟨u, hu, _, h2, h3, h4⟩ :=
      layoutEntries_lookup table.columns.length hcols table.columns 0 0 c hc hnodup
    exact ⟨u, hu, by omega, fun hp => h3.mpr hp, fun hp => (h4 hp).2⟩

/-- Witness for the amended C3 theorem at the two-column fixture table. -/
theorem c3_witness :
    (∀ c ∈ wUpsertTable.columns, Safe c.name ≠ "") ∧
    (wUpsertTable.columns.filter (fun c => !c.primary)).length ≠ 0 ∧
    (getUpsertQuery "vent" wUpsertTable).query =
      "INSERT INTO " ++ "vent" ++ "." ++ Safe wUpsertTable.name ++ " (" ++
        commaJoin (wUpsertTable.columns.map (fun c => Safe c.name)) ++ ") VALUES (" ++
        commaJoin (insEntries 0 wUpsertTable.columns.length) ++ ") " ++
        ("ON CONFLICT ON CONSTRAINT " ++ Safe wUpsertTable.name ++ "_pkey DO UPDATE SET " ++
          commaJoin (updEntries wUpsertTable.columns.length 0 wUpsertTable.columns)) ++ ";" :=
  ⟨by decide, by decide,
    (c3_upsert_query_amended "vent" wUpsertTable (by decide)).2.1 (by decide)⟩

lemma upsertParamsGo_isOk (row : EventDataRow) :
    ∀ (entries : List (String × UpsertColumn)) (containers : List (Option String)),
      (upsertParamsGo row entries containers).isOk = true ↔
        ∀ p ∈ entries, p.2.updPosition = 0 → (alLookup row p.1).isSome = true := by
  intro entries
  induction entries with
  | nil =>
    intro containers
    simp [upsertParamsGo, Except.isOk, Except.toBool]
  | cons e rest ih =>
    obtain ⟨colName, col⟩ := e
    intro containers
    rw [upsertParamsGo]
    cases hl : alLookup row colName with
    | some v =>
      simp only
      rw [ih]
      constructor
      · intro h p hp
        rcases List.mem_cons.mp hp with he | ht
        · subst he; intro _; rw [hl]; rfl
        · exact h p ht
      · intro h p hp
        exact h p (List.mem_cons_of_mem _ hp)
    | none =>
      simp only
      by_cases hu : 0 < col.updPosition
      · rw [if_pos hu, ih]
        constructor
        · intro h p hp
          rcases List.mem_cons.mp hp with he | ht
          · subst he; intro h0
            have h0' : col.updPosition = 0 := h0
            omega
          · exact h p ht
        · intro h p hp
          exact h p (List.mem_cons_of_mem _ hp)
      · rw [if_neg hu]
        constructor
        · intro h; exact absurd h (by simp [Except.isOk, Except.toBool])
        · intro h
          have := h (colName, col) (List.mem_cons_self _ _) (Nat.eq_zero_of_not_pos hu)
          rw [hl] at this
          exact absurd this (by simp)

lemma upsertParamsGo_error (row : EventDataRow) :
    ∀ (entries : List (String × UpsertColumn)) (containers : List (Option String)),
      (¬ ∀ p ∈ entries, p.2.updPosition = 0 → (alLookup row p.1).isSome = true) →
      ∃ p, p ∈ entries ∧ p.2.updPosition = 0 ∧ alLookup row p.1 = none ∧
        upsertParamsGo row entries containers =
          .error ("Error null primary key for column " ++ p.1) := by
  intro entries
  induction entries with
  | nil =>
    intro containers h
    exact absurd (fun p hp => absurd hp (List.not_mem_nil p)) h
  | cons e rest ih =>
    obtain ⟨colName, col⟩ := e
    intro containers h
    rw [upsertParamsGo]
    cases hl : alLookup row colName with
    | some v =>
      simp only
      have hrest : ¬ ∀ p ∈ rest, p.2.updPosition = 0 → (alLookup row p.1).isSome = true := by
        intro hall
        apply h
        intro p hp
        rcases List.mem_cons.mp hp with he | ht
        · subst he; intro _; rw [hl]; rfl
        · exact hall p ht
      obtain ⟨p, hp, h1, h2, h3⟩ := ih _ hrest
      exact ⟨p, List.mem_cons_of_mem _ hp, h1, h2, h3⟩
    | none =>
      simp only
      by_cases hu : 0 < col.updPosition
      · rw [if_pos hu]
        have hrest : ¬ ∀ p ∈ rest, p.2.updPosition = 0 → (alLookup row p.1).isSome = true := by
          intro hall
          apply h
          intro p hp
          rcases List.mem_cons.mp hp with he | ht
          · subst he; intro h0
            have h0' : col.updPosition = 0 := h0
            omega
          · exact hall p ht
        obtain ⟨p, hp, h1, h2, h3⟩ := ih _ hrest
        exact ⟨p, List.mem_cons_of_mem _ hp, h1, h2, h3⟩
      · rw [if_neg hu]
        exact ⟨(colName, col), List.mem_cons_self _ _, Nat.eq_zero_of_not_pos hu, hl, rfl⟩

lemma upsertParamsGo_length (row : EventDataRow) :
    ∀ (entries : List (String × UpsertColumn)) (containers out : List (Option String)),
      upsertParamsGo row entries containers = .ok out → out.length = containers.length := by
  intro entries
  induction entries with
  | nil =>
    intro containers out h
    rw [upsertParamsGo] at h
    cases h
    rfl
  | cons e rest ih =>
    obtain ⟨colName, col⟩ := e
    intro containers out h
    rw [upsertParamsGo] at h
    cases hl : alLookup row colName with
    | some v =>
      rw [hl] at h
      simp only at h
      by_cases hu : 0 < col.updPosition
      · rw [if_pos hu] at h
        have := ih _ _ h
        simpa using this
      · rw [if_neg hu] at h
        have := ih _ _ h
        simpa using this
    | none =>
      rw [hl] at h
      simp only at h
      by_cases hu : 0 < col.updPosition
      · rw [if_pos hu] at h
        have := ih _ _ h
        simpa using this
      · rw [if_neg hu] at h
        cases h

lemma upsertParamsGo_untouched (row : EventDataRow) :
    ∀ (entries : List (String × UpsertColumn)) (containers out : List (Option String)) (p : Nat),
      upsertParamsGo row entries containers = .ok out →
      (∀ q ∈ entries, q.2.insPosition ≠ p ∧ (0 < q.2.updPosition → q.2.updPosition ≠ p)) →
      out[p]? = containers[p]? := by
  intro entries
  induction entries with
  | nil =>
    intro containers out p h _
    rw [upsertParamsGo] at h
    cases h
    rfl
  | cons e rest ih =>
    obtain ⟨colName, col⟩ := e
    intro containers out p h hcond
    have hhead := hcond (colName, col) (List.mem_cons_self _ _)
    have htail : ∀ q ∈ rest, q.2.insPosition ≠ p ∧ (0 < q.2.updPosition → q.2.updPosition ≠ p) :=
      fun q hq => hcond q (List.mem_cons_of_mem _ hq)
    rw [upsertParamsGo] at h
    cases hl : alLookup row colName with
    | some v =>
      rw [hl] at h
      simp only at h
      by_cases hu : 0 < col.updPosition
      · rw [if_pos hu] at h
        rw [ih _ _ _ h htail, List.getElem?_set_ne (hhead.2 hu), List.getElem?_set_ne hhead.1]
      · rw [if_neg hu] at h
        rw [ih _ _ _ h htail, List.getElem?_set_ne hhead.1]
    | none =>
      rw [hl] at h
      simp only at h
      by_cases hu : 0 < col.updPosition
      · rw [if_pos hu] at h
        rw [ih _ _ _ h htail, List.getElem?_set_ne (hhead.2 hu), List.getElem?_set_ne hhead.1]
      · rw [if_neg hu] at h
        cases h

lemma layoutEntries_cons_primary {c : PColumn} (cols nKeys i : Nat) (rest : List PColumn)
    (hp : c.primary = true) :
    layoutEntries cols nKeys i (c :: rest) =
      (Safe c.name, { isNumeric := IsNumeric c.typ, insPosition := i, updPosition := 0 }) ::
        layoutEntries cols nKeys (i + 1) rest := by
  rw [layoutEntries, if_pos hp]

lemma layoutEntries_cons_nonpk {c : PColumn} (cols nKeys i : Nat) (rest : List PColumn)
    (hp : c.primary = false) :
    layoutEntries cols nKeys i (c :: rest) =
      (Safe c.name,
        { isNumeric := IsNumeric c.typ, insPosition := i, updPosition := cols + nKeys }) ::
        layoutEntries cols (nKeys + 1) (i + 1) rest := by
  rw [layoutEntries, if_neg (by rw [hp]; exact Bool.false_ne_true)]

lemma upsertParamsGo_binds (row : EventDataRow) (cols : Nat) :
    ∀ (cs : List PColumn) (nKeys i : Nat) (containers out : List (Option String)),
      i + cs.length = cols →
      (∀ q ∈ layoutEntries cols nKeys i cs,
        q.2.insPosition < containers.length ∧
        (0 < q.2.updPosition → q.2.updPosition < containers.length)) →
      upsertParamsGo row (layoutEntries cols nKeys i cs) containers = .ok out →
      ∀ c ∈ cs, ∃ u, (Safe c.name, u) ∈ layoutEntries cols nKeys i cs ∧
        out[u.insPosition]? = some (alLookup row (Safe c.name)) ∧
        (0 < u.updPosition → out[u.updPosition]? = some (alLookup row (Safe c.name))) := by
  intro cs
  induction cs with
  | nil =>
    intro nKeys i containers out _ _ _ c hc
    exact absurd hc (List.not_mem_nil c)
  | cons ch rest ih =>
    intro nKeys i containers out hinv hbound h c hc
    simp only [List.length_cons] at hinv
    have hic : i < cols := by omega
    have htailinv : (i + 1) + rest.length = cols := by omega
    cases hp : ch.primary
    · -- non-primary head: updPosition is cols + nKeys > 0
      rw [layoutEntries_cons_nonpk cols nKeys i rest hp] at h hbound ⊢
      have hheadb := hbound _ (List.mem_cons_self _ _)
      have hinsb : i < containers.length := hheadb.1
      have hupos : (0 : Nat) < cols + nKeys := by omega
      have hupdb : cols + nKeys < containers.length := hheadb.2 hupos
      have htailprops : ∀ q ∈ layoutEntries cols (nKeys + 1) (i + 1) rest,
          (i + 1 ≤ q.2.insPosition ∧ q.2.insPosition < cols) ∧
          (q.2.updPosition = 0 ∨ cols + nKeys + 1 ≤ q.2.updPosition) := by
        intro q hq
        have hprops := layoutEntries_mem_props cols rest (nKeys + 1) (i + 1) q hq
        refine ⟨⟨hprops.1.1, by omega⟩, ?_⟩
        rcases hprops.2 with h0 | h0
        · exact Or.inl h0
        · exact Or.inr (by omega)
      rw [upsertParamsGo] at h
      cases hl : alLookup row (Safe ch.name) with
      | some v =>
        rw [hl] at h
        simp only at h
        rw [if_pos hupos] at h
        rcases List.mem_cons.mp hc with hceq | hcr
        · subst hceq
          refine ⟨{ isNumeric := IsNumeric c.typ, insPosition := i, updPosition := cols + nKeys },
            List.mem_cons_self _ _, ?_, ?_⟩
          · rw [hl]
            have hout : out[i]? =
                ((containers.set i (some v)).set (cols + nKeys) (some v))[i]? := by
              apply upsertParamsGo_untouched row _ _ _ _ h
              intro q hq
              have hprops := htailprops q hq
              constructor
              · intro he; omega
              · intro h0 he
                rcases hprops.2 with hz | hz
                · omega
                · omega
            rw [hout, List.getElem?_set_ne (by omega), List.getElem?_set_eq_of_lt _ hinsb]
          · intro _
            rw [hl]
            have hout : out[cols + nKeys]? =
                ((containers.set i (some v)).set (cols + nKeys) (some v))[cols + nKeys]? := by
              apply upsertParamsGo_untouched row _ _ _ _ h
              intro q hq
              have hprops := htailprops q hq
              constructor
              · intro he; omega
              · intro h0 he
                rcases hprops.2 with hz | hz
                · omega
                · omega
            rw [hout, List.getElem?_set_eq_of_lt]
            rw [List.length_set]
            exact hupdb
        · have htb : ∀ q ∈ layoutEntries cols (nKeys + 1) (i + 1) rest,
              q.2.insPosition < ((containers.set i (some v)).set (cols + nKeys) (some v)).length ∧
              (0 < q.2.updPosition →
                q.2.updPosition <
                  ((containers.set i (some v)).set (cols + nKeys) (some v)).length) := by
            intro q hq
            have := hbound q (List.mem_cons_of_mem _ hq)
            simpa using this
          obtain ⟨u, hmem, h1, h2⟩ := ih (nKeys + 1) (i + 1) _ out htailinv htb h c hcr
          exact ⟨u, List.mem_cons_of_mem _ hmem, h1, h2⟩
      | none =>
        rw [hl] at h
        simp only at h
        rw [if_pos hupos] at h
        rcases List.mem_cons.mp hc with hceq | hcr
        · subst hceq
          refine ⟨{ isNumeric := IsNumeric c.typ, insPosition := i, updPosition := cols + nKeys },
            List.mem_cons_self _ _, ?_, ?_⟩
          · rw [hl]
            have hout : out[i]? =
                ((containers.set i none).set (cols + nKeys) none)[i]? := by
              apply upsertParamsGo_untouched row _ _ _ _ h
              intro q hq
              have hprops := htailprops q hq
              constructor
              · intro he; omega
              · intro h0 he
                rcases hprops.2 with hz | hz
                · omega
                · omega
            rw [hout, List.getElem?_set_ne (by omega), List.getElem?_set_eq_of_lt _ hinsb]
          · intro _
            rw [hl]
            have hout : out[cols + nKeys]? =
                ((containers.set i none).set (cols + nKeys) none)[cols + nKeys]? := by
              apply upsertParamsGo_untouched row _ _ _ _ h
              intro q hq
              have hprops := htailprops q hq
              constructor
              · intro he; omega
              · intro h0 he
                rcases hprops.2 with hz | hz
                · omega
                · omega
            rw [hout, List.getElem?_set_eq_of_lt]
            rw [List.length_set]
            exact hupdb
        · have htb : ∀ q ∈ layoutEntries cols (nKeys + 1) (i + 1) rest,
              q.2.insPosition < ((containers.set i none).set (cols + nKeys) none).length ∧
              (0 < q.2.updPosition →
                q.2.updPosition < ((containers.set i none).set (cols + nKeys) none).length) := by
            intro q hq
            have := hbound q (List.mem_cons_of_mem _ hq)
            simpa using this
          obtain ⟨u, hmem, h1, h2⟩ := ih (nKeys + 1) (i + 1) _ out htailinv htb h c hcr
          exact ⟨u, List.mem_cons_of_mem _ hmem, h1, h2⟩
    · -- primary head: updPosition is 0
      rw [layoutEntries_cons_primary cols nKeys i rest hp] at h hbound ⊢
      have hinsb : i < containers.length := (hbound _ (List.mem_cons_self _ _)).1
      have htailprops : ∀ q ∈ layoutEntries cols nKeys (i + 1) rest,
          (i + 1 ≤ q.2.insPosition ∧ q.2.insPosition < cols) ∧
          (q.2.updPosition = 0 ∨ cols + nKeys ≤ q.2.updPosition) := by
        intro q hq
        have hprops := layoutEntries_mem_props cols rest nKeys (i + 1) q hq
        refine ⟨⟨hprops.1.1, by omega⟩, ?_⟩
        rcases hprops.2 with h0 | h0
        · exact Or.inl h0
        · exact Or.inr h0.1
      rw [upsertParamsGo] at h
      cases hl : alLookup row (Safe ch.name) with
      | some v =>
        rw [hl] at h
        simp only at h
        rw [if_neg (by omega)] at h
        rcases List.mem_cons.mp hc with hceq | hcr
        · subst hceq
          refine ⟨{ isNumeric := IsNumeric c.typ, insPosition := i, updPosition := 0 },
            List.mem_cons_self _ _, ?_, ?_⟩
          · rw [hl]
            have hout : out[i]? = (containers.set i (some v))[i]? := by
              apply upsertParamsGo_untouched row _ _ _ _ h
              intro q hq
              have hprops := htailprops q hq
              constructor
              · intro he; omega
              · intro h0 he
                rcases hprops.2 with hz | hz
                · omega
                · omega
            rw [hout, List.getElem?_set_eq_of_lt _ hinsb]
          · intro h0
            exact absurd (show (0 : Nat) < 0 from h0) (by omega)
        · have htb : ∀ q ∈ layoutEntries cols nKeys (i + 1) rest,
              q.2.insPosition < (containers.set i (some v)).length ∧
              (0 < q.2.updPosition → q.2.updPosition < (containers.set i (some v)).length) := by
            intro q hq
            have := hbound q (List.mem_cons_of_mem _ hq)
            simpa using this
          obtain ⟨u, hmem, h1, h2⟩ := ih nKeys (i + 1) _ out htailinv htb h c hcr
          exact ⟨u, List.mem_cons_of_mem _ hmem, h1, h2⟩
      | none =>
        rw [hl] at h
        simp only at h
        rw [if_neg (by omega)] at h
        cases h

lemma alLookup_of_mem_nodup {α : Type} :
    ∀ {l : List (String × α)} {k : String} {v : α},
      (l.map Prod.fst).Nodup → (k, v) ∈ l → alLookup l k = some v := by
  intro l
  induction l with
  | nil => intro k v _ h; exact absurd h (List.not_mem_nil _)
  | cons e rest ih =>
    obtain ⟨k0, v0⟩ := e
    intro k v hnodup hmem
    have hn : k0 ∉ rest.map Prod.fst ∧ (rest.map Prod.fst).Nodup := by
      rw [List.map_cons] at hnodup
      exact List.nodup_cons.mp hnodup
    rcases List.mem_cons.mp hmem with he | ht
    · rw [Prod.mk.injEq] at he
      rw [alLookup, if_pos he.1.symm, he.2]
    · have hk : k0 ≠ k := by
        intro he
        subst he
        exact hn.1 (List.mem_map.mpr ⟨(k0, v), ht, rfl⟩)
      rw [alLookup, if_neg hk]
      exact ih hn.2 ht

/-- Claim C4: for the layout of `getUpsertQuery` on a table with distinct
sanitized column names and any row, parameter binding succeeds exactly when
every primary-key column of the table is present in the row; when some primary
key is absent the result is the missing-primary-key error naming such a column;
and on success every column of the table is bound — its insert slot (and its
update slot, for non-PK columns) holds the row's value when present and NULL
when absent. -/
theorem c4_upsert_param_binding (schema : String) (table : PTable) (row : EventDataRow)
    (hnodup : (table.columns.map (fun c => Safe c.name)).Nodup) :
    ((getUpsertParams (getUpsertQuery schema table) row).isOk = true ↔
      ∀ c ∈ table.columns, c.primary = true → (alLookup row (Safe c.name)).isSome = true) ∧
    ((¬ ∀ c ∈ table.columns, c.primary = true → (alLookup row (Safe c.name)).isSome = true) →
      ∃ c, c ∈ table.columns ∧ c.primary = true ∧ alLookup row (Safe c.name) = none ∧
        getUpsertParams (getUpsertQuery schema table) row =
          .error ("Error null primary key for column " ++ Safe c.name)) ∧
    (∀ out, getUpsertParams (getUpsertQuery schema table) row = .ok out →
      out.length = (getUpsertQuery schema table).length ∧
      ∀ c ∈ table.columns, ∃ u,
        alLookup (getUpsertQuery schema table).columns (Safe c.name) = some u ∧
        out[u.insPosition]? = some (alLookup row (Safe c.name)) ∧
        (0 < u.updPosition → out[u.updPosition]? = some (alLookup row (Safe c.name)))) := by
  have hcolseq := getUpsertQuery_columns_eq schema table hnodup
  have hknodup : ((layoutEntries table.columns.length 0 0 table.columns).map Prod.fst).Nodup := by
    rw [layoutEntries_keys]
    exact hnodup
  have hbridge :
      (∀ p ∈ layoutEntries table.columns.length 0 0 table.columns,
        p.2.updPosition = 0 → (alLookup row p.1).isSome = true) →
      ∀ c ∈ table.columns, c.primary = true → (alLookup row (Safe c.name)).isSome = true := by
    intro hEnt c hc hcp
    have hcols : 0 < table.columns.length := List.length_pos.mpr (List.ne_nil_of_mem hc)
    obtain ⟨u, hu, _, _, h3, _⟩ :=
      layoutEntries_lookup table.columns.length hcols table.columns 0 0 c hc hnodup
    exact hEnt (Safe c.name, u) (alLookup_mem hu) (h3.mpr hcp)
  have hbridge2 :
      (∀ c ∈ table.columns, c.primary = true → (alLookup row (Safe c.name)).isSome = true) →
      ∀ p ∈ layoutEntries table.columns.length 0 0 table.columns,
        p.2.updPosition = 0 → (alLookup row p.1).isSome = true := by
    intro hCols p hp hupd
    obtain ⟨c, hc, h1, _, h3⟩ := layoutEntries_mem_inv table.columns.length table.columns 0 0 p hp
    have hcols : 0 < table.columns.length := List.length_pos.mpr (List.ne_nil_of_mem hc)
    cases hcp : c.primary
    · have := h3 hcp
      omega
    · rw [h1]
      exact hCols c hc hcp
  refine ⟨?_, ?_, ?_⟩
  · rw [show getUpsertParams (getUpsertQuery schema table) row =
        upsertParamsGo row (getUpsertQuery schema table).columns
          (List.replicate (getUpsertQuery schema table).length none) from rfl,
      hcolseq, upsertParamsGo_isOk]
    exact ⟨hbridge, hbridge2⟩
  · intro hhyp
    have hent_not : ¬ ∀ p ∈ layoutEntries table.columns.length 0 0 table.columns,
        p.2.updPosition = 0 → (alLookup row p.1).isSome = true :=
      fun hEnt => hhyp (hbridge hEnt)
    obtain ⟨p, hp, h1, h2, h3⟩ := upsertParamsGo_error row _
      (List.replicate (getUpsertQuery schema table).length none) hent_not
    obtain ⟨c, hc, hck, hcpr, hcnp⟩ :=
      layoutEntries_mem_inv table.columns.length table.columns 0 0 p hp
    have hcols : 0 < table.columns.length := List.length_pos.mpr (List.ne_nil_of_mem hc)
    have hcp : c.primary = true := by
      cases hcp : c.primary
      · have := hcnp hcp; omega
      · rfl
    refine ⟨c, hc, hcp, by rw [← hck]; exact h2, ?_⟩
    rw [show getUpsertParams (getUpsertQuery schema table) row =
        upsertParamsGo row (getUpsertQuery schema table).columns
          (List.replicate (getUpsertQuery schema table).length none) from rfl, hcolseq, h3, ← hck]
  · intro out hout
    rw [show getUpsertParams (getUpsertQuery schema table) row =
        upsertParamsGo row (getUpsertQuery schema table).columns
          (List.replicate (getUpsertQuery schema table).length none) from rfl, hcolseq] at hout
    constructor
    · have := upsertParamsGo_length row _ _ _ hout
      simpa using this
    · intro c hc
      have hlen : (getUpsertQuery schema table).length =
          table.columns.length + (table.columns.filter (fun c => !c.primary)).length := by
        show table.columns.length +
            (getUpsertQueryGo table.columns.length table.columns "" "" "" 0 0 []).2.2.2.1 = _
        rw [show (getUpsertQueryGo table.columns.length table.columns "" "" "" 0 0 []).2.2.2.1 =
            ((getUpsertQueryGo table.columns.length table.columns "" "" "" 0 0 []).2.2.2).1
            from rfl, getUpsertQueryGo_layout]
        simp
      have hbounds : ∀ q ∈ layoutEntries table.columns.length 0 0 table.columns,
          q.2.insPosition <
            (List.replicate (getUpsertQuery schema table).length (none : Option String)).length ∧
          (0 < q.2.updPosition →
            q.2.updPosition <
              (List.replicate (getUpsertQuery schema table).length (none : Option String)).length) := by
        intro q hq
        have hprops := layoutEntries_mem_props table.columns.length table.columns 0 0 q hq
        rw [List.length_replicate, hlen]
        constructor
        · omega
        · intro h0
          rcases hprops.2 with hz | hz
          · omega
          · omega
      obtain ⟨u, hmem, h1, h2⟩ := upsertParamsGo_binds row table.columns.length table.columns
        0 0 _ out (by omega) hbounds hout c hc
      exact ⟨u, by rw [hcolseq]; exact alLookup_of_mem_nodup hknodup hmem, h1, h2⟩

/-- Witness for C4 at the fixture table with a row carrying only the key. -/
theorem c4_witness :
    ((getUpsertParams (getUpsertQuery "vent" wUpsertTable) [("addr", "0xAB")]).isOk = true ↔
      ∀ c ∈ wUpsertTable.columns, c.primary = true →
        (alLookup [("addr", "0xAB")] (Safe c.name)).isSome = true) ∧
    ((¬ ∀ c ∈ wUpsertTable.columns, c.primary = true →
        (alLookup [("addr", "0xAB")] (Safe c.name)).isSome = true) →
      ∃ c, c ∈ wUpsertTable.columns ∧ c.primary = true ∧
        alLookup [("addr", "0xAB")] (Safe c.name) = none ∧
        getUpsertParams (getUpsertQuery "vent" wUpsertTable) [("addr", "0xAB")] =
          .error ("Error null primary key for column " ++ Safe c.name)) ∧
    (∀ out, getUpsertParams (getUpsertQuery "vent" wUpsertTable) [("addr", "0xAB")] = .ok out →
      out.length = (getUpsertQuery "vent" wUpsertTable).length ∧
      ∀ c ∈ wUpsertTable.columns, ∃ u,
        alLookup (getUpsertQuery "vent" wUpsertTable).columns (Safe c.name) = some u ∧
        out[u.insPosition]? = some (alLookup [("addr", "0xAB")] (Safe c.name)) ∧
        (0 < u.updPosition →
          out[u.updPosition]? = some (alLookup [("addr", "0xAB")] (Safe c.name)))) :=
  c4_upsert_param_binding "vent" wUpsertTable [("addr", "0xAB")] (by decide)

lemma foldl_max_ge_init : ∀ (l : List LogEntry) (m : Nat),
    m ≤ l.foldl (fun a x => max a x.id) m := by
  intro l
  induction l with
  | nil => intro m; exact le_refl m
  | cons e rest ih =>
    intro m
    exact le_trans (le_max_left m e.id) (ih (max m e.id))

lemma foldl_max_mem_le : ∀ (l : List LogEntry) (m : Nat) (e : LogEntry),
    e ∈ l → e.id ≤ l.foldl (fun a x => max a x.id) m := by
  intro l
  induction l with
  | nil => intro m e he; exact absurd he (List.not_mem_nil e)
  | cons h rest ih =>
    intro m e he
    rcases List.mem_cons.mp he with he1 | he2
    · subst he1
      exact le_trans (le_max_right m e.id) (foldl_max_ge_init rest (max m e.id))
    · exact ih (max m h.id) e he2

lemma mem_log_id_le (db : DBState) (e : LogEntry) (he : e ∈ db.log) : e.id ≤ maxLogId db :=
  foldl_max_mem_le db.log 0 e he

lemma pickMaxLog_mem : ∀ (l : List LogEntry) (acc : Option LogEntry) (m : LogEntry),
    l.foldl (fun acc e =>
      match acc with
      | none => some e
      | some x => if x.id < e.id then some e else some x) acc = some m →
    acc = some m ∨ m ∈ l := by
  intro l
  induction l with
  | nil => intro acc m h; exact Or.inl h
  | cons e rest ih =>
    intro acc m h
    rw [List.foldl_cons] at h
    rcases ih _ m h with hacc | hm
    · cases acc with
      | none =>
        simp only at hacc
        rw [Option.some_inj] at hacc
        exact Or.inr (hacc ▸ List.mem_cons_self _ _)
      | some x =>
        simp only at hacc
        by_cases hlt : x.id < e.id
        · rw [if_pos hlt, Option.some_inj] at hacc
          exact Or.inr (hacc ▸ List.mem_cons_self _ _)
        · rw [if_neg hlt, Option.some_inj] at hacc
          exact Or.inl (congrArg some hacc)
    · exact Or.inr (List.mem_cons_of_mem _ hm)

lemma pickMaxLog_append (l : List LogEntry) (e : LogEntry)
    (h : ∀ x ∈ l, x.id < e.id) : pickMaxLog (l ++ [e]) = some e := by
  unfold pickMaxLog
  rw [List.foldl_append, List.foldl_cons, List.foldl_nil]
  cases hacc : l.foldl (fun acc e =>
      match acc with
      | none => some e
      | some x => if x.id < e.id then some e else some x) none with
  | none => rfl
  | some m =>
    rcases pickMaxLog_mem l none m hacc with h1 | h2
    · cases h1
    · simp only
      rw [if_pos (h m h2)]

lemma foldl_upserts (tbl : String) :
    ∀ (rs : List EventDataRow) (db : DBState),
      ((rs.map (fun r => TxOp.upsertRow tbl r)).foldl applyOp db).rows =
          db.rows ++ rs.map (fun r => (tbl, r)) ∧
      ((rs.map (fun r => TxOp.upsertRow tbl r)).foldl applyOp db).log = db.log ∧
      ((rs.map (fun r => TxOp.upsertRow tbl r)).foldl applyOp db).logdet = db.logdet := by
  intro rs
  induction rs with
  | nil => intro db; simp
  | cons r rest ih =>
    intro db
    simp only [List.map_cons, List.foldl_cons]
    have h := ih (applyOp db (TxOp.upsertRow tbl r))
    rw [h.1, h.2.1, h.2.2]
    simp [applyOp]

lemma foldl_batch_groups (data : EventData) :
    ∀ (ts : List (String × SQLTable)) (db : DBState),
      ((ts.flatMap (fun p =>
          TxOp.insLogDet (Safe p.2.name) p.1 (dataRowsFor data p.2.name).length ::
            (dataRowsFor data p.2.name).map (fun r => TxOp.upsertRow (Safe p.2.name) r))).foldl
        applyOp db).rows = db.rows ++ batchRows ts data ∧
      ((ts.flatMap (fun p =>
          TxOp.insLogDet (Safe p.2.name) p.1 (dataRowsFor data p.2.name).length ::
            (dataRowsFor data p.2.name).map (fun r => TxOp.upsertRow (Safe p.2.name) r))).foldl
        applyOp db).log = db.log := by
  intro ts
  induction ts with
  | nil => intro db; simp [batchRows]
  | cons p rest ih =>
    intro db
    rw [List.flatMap_cons, List.foldl_append, List.foldl_cons]
    have hup := foldl_upserts (Safe p.2.name) (dataRowsFor data p.2.name)
      (applyOp db (TxOp.insLogDet (Safe p.2.name) p.1 (dataRowsFor data p.2.name).length))
    have hrest := ih ((dataRowsFor data p.2.name).map
        (fun r => TxOp.upsertRow (Safe p.2.name) r) |>.foldl applyOp
      (applyOp db (TxOp.insLogDet (Safe p.2.name) p.1 (dataRowsFor data p.2.name).length)))
    rw [hrest.1, hrest.2, hup.1, hup.2.1]
    simp only [applyOp]
    constructor
    · rw [show batchRows (p :: rest) data =
          (dataRowsFor data p.2.name).map (fun r => (Safe p.2.name, r)) ++ batchRows rest data
        from by rw [batchRows, List.flatMap_cons]; rfl]
      simp [List.append_assoc]
    · trivial

lemma applyBatch_spec (eventTables : List (String × SQLTable)) (data : EventData) (db : DBState) :
    ((attemptOps eventTables data).foldl applyOp db).rows = db.rows ++ batchRows eventTables data ∧
    ((attemptOps eventTables data).foldl applyOp db).log =
      db.log ++ [{ id := maxLogId db + 1, registers := eventTables.length, height := data.block }] := by
  rw [attemptOps, List.foldl_cons]
  have h := foldl_batch_groups data eventTables (applyOp db (TxOp.insLog eventTables.length data.block))
  rw [h.1, h.2]
  simp [applyOp]

lemma getLastBlockID_applyBatch (eventTables : List (String × SQLTable)) (data : EventData)
    (db : DBState) :
    GetLastBlockID ((attemptOps eventTables data).foldl applyOp db) = data.block := by
  have h := (applyBatch_spec eventTables data db).2
  rw [GetLastBlockID, h, pickMaxLog_append]
  intro x hx
  have := mem_log_id_le db x hx
  simp only
  omega

lemma runAttempt_ok {db : DBState} {ops : List TxOp} {a : Attempt} {db' : DBState}
    (h : runAttempt db ops a = .ok db') : db' = ops.foldl applyOp db := by
  rw [runAttempt] at h
  cases hf : a.failAt with
  | none =>
    rw [hf] at h
    simp only at h
    cases h
    rfl
  | some jc =>
    rw [hf] at h
    simp only at h
    split at h
    · cases h
    · split at h
      · cases h
      · cases h
        rfl

/-- C1: SetBlock is atomic. If an attempt sequence ends in a commit, the resulting
database holds exactly the prior state plus the whole batch: one new `_bosmarmot_log`
entry with the block height (so GetLastBlockID then returns that height) and every
row of every table of the batch. If it ends in a failed (rolled-back) transaction,
the database is unchanged and GetLastBlockID is unchanged. -/
theorem c1_setblock_atomicity (eventTables : List (String × SQLTable)) (data : EventData)
    (db : DBState) (attempts : List Attempt) :
    (∀ db', SetBlock eventTables data db attempts = (.committed, db') →
      db'.rows = db.rows ++ batchRows eventTables data ∧
      db'.log = db.log ++
        [{ id := maxLogId db + 1, registers := eventTables.length, height := data.block }] ∧
      GetLastBlockID db' = data.block) ∧
    (∀ e db', SetBlock eventTables data db attempts = (.failed e, db') →
      db' = db ∧ GetLastBlockID db' = GetLastBlockID db) := by
  induction attempts with
  | nil =>
    constructor
    · intro db' h
      rw [SetBlock] at h
      simp at h
    · intro e db' h
      rw [SetBlock] at h
      simp at h
  | cons a rest ih =>
    constructor
    · intro db' h
      rw [SetBlock] at h
      cases hr : runAttempt db (attemptOps eventTables data) a with
      | ok db1 =>
        rw [hr] at h
        simp only at h
        rw [Prod.mk.injEq] at h
        have hdb : db1 = db' := h.2
        subst hdb
        rw [runAttempt_ok hr]
        exact ⟨(applyBatch_spec eventTables data db).1, (applyBatch_spec eventTables data db).2,
          getLastBlockID_applyBatch eventTables data db⟩
      | error kc =>
        rw [hr] at h
        simp only at h
        obtain ⟨k, c⟩ := kc
        cases k with
        | upsert =>
          by_cases hd : c = PgCode.undefinedTable ∨ c = PgCode.undefinedColumn
          · rw [if_pos hd] at h
            by_cases hs : a.syncOk = true
            · rw [if_pos hs] at h
              exact ih.1 db' h
            · rw [if_neg hs] at h
              simp at h
          · rw [if_neg hd] at h
            simp at h
        | logIns => simp at h
        | logDet => simp at h
        | commitOp => simp at h
    · intro e db' h
      rw [SetBlock] at h
      cases hr : runAttempt db (attemptOps eventTables data) a with
      | ok db1 =>
        rw [hr] at h
        simp at h
      | error kc =>
        rw [hr] at h
        simp only at h
        obtain ⟨k, c⟩ := kc
        cases k with
        | upsert =>
          by_cases hd : c = PgCode.undefinedTable ∨ c = PgCode.undefinedColumn
          · rw [if_pos hd] at h
            by_cases hs : a.syncOk = true
            · rw [if_pos hs] at h
              exact ih.2 e db' h
            · rw [if_neg hs] at h
              rw [Prod.mk.injEq] at h
              exact ⟨h.2.symm, by rw [h.2.symm]⟩
          · rw [if_neg hd] at h
            rw [Prod.mk.injEq] at h
            exact ⟨h.2.symm, by rw [h.2.symm]⟩
        | logIns =>
          rw [Prod.mk.injEq] at h
          exact ⟨h.2.symm, by rw [h.2.symm]⟩
        | logDet =>
          rw [Prod.mk.injEq] at h
          exact ⟨h.2.symm, by rw [h.2.symm]⟩
        | commitOp =>
          rw [Prod.mk.injEq] at h
          exact ⟨h.2.symm, by rw [h.2.symm]⟩

/-- Witness for C1: the concrete fixture batch commits under an all-ok attempt to
exactly `wDbAfter`, and a first-op failure leaves `wDb0` untouched. -/
theorem c1_witness :
    SetBlock wTables wData wDb0 [okAttempt] = (.committed, wDbAfter) ∧
    (wDbAfter.rows = wDb0.rows ++ batchRows wTables wData ∧
     wDbAfter.log = wDb0.log ++
       [{ id := maxLogId wDb0 + 1, registers := wTables.length, height := wData.block }] ∧
     GetLastBlockID wDbAfter = wData.block) ∧
    (wDb0 = wDb0 ∧ GetLastBlockID wDb0 = GetLastBlockID wDb0) :=
  ⟨by decide,
   (c1_setblock_atomicity wTables wData wDb0 [okAttempt]).1 wDbAfter (by decide),
   (c1_setblock_atomicity wTables wData wDb0 [failAttempt]).2
     (.pg .logIns .otherCode) wDb0 (by decide)⟩

/-- C2: drift recovery is an unconditional, unbounded retry. Whenever an attempt
fails during an upsert with `undefined_table` or `undefined_column` and the
re-synchronization succeeds, SetBlock retries the whole batch (the call reduces to
SetBlock on the remaining attempts, with the database unchanged); errors raised
outside the upserts are returned without any retry; and persistent drift loops
forever - for every n, n consecutive drift attempts leave SetBlock still retrying
with the database unchanged. -/
theorem c2_retry_unbounded (eventTables : List (String × SQLTable)) (data : EventData)
    (db : DBState) (a : Attempt) :
    (∀ c rest, runAttempt db (attemptOps eventTables data) a = .error (.upsert, c) →
      (c = PgCode.undefinedTable ∨ c = PgCode.undefinedColumn) → a.syncOk = true →
      SetBlock eventTables data db (a :: rest) = SetBlock eventTables data db rest) ∧
    (∀ k c rest, runAttempt db (attemptOps eventTables data) a = .error (k, c) →
      k ≠ OpKind.upsert →
      SetBlock eventTables data db (a :: rest) = (.failed (.pg k c), db)) ∧
    (∀ n, runAttempt db (attemptOps eventTables data) a = .error (.upsert, .undefinedTable) →
      a.syncOk = true →
      SetBlock eventTables data db (List.replicate n a) = (.retrying, db)) := by
  refine ⟨?_, ?_, ?_⟩
  · intro c rest hr hd hs
    rw [SetBlock, hr]
    simp only
    rw [if_pos hd, if_pos hs]
  · intro k c rest hr hk
    cases k with
    | upsert => exact absurd rfl hk
    | logIns => rw [SetBlock, hr]
    | logDet => rw [SetBlock, hr]
    | commitOp => rw [SetBlock, hr]
  · intro n hr hs
    induction n with
    | zero => rfl
    | succ m ihm =>
      rw [List.replicate, SetBlock, hr]
      simp only
      rw [if_pos (Or.inl (by trivial)), if_pos hs]
      exact ihm

/-- Witness for C2: a drift attempt on the fixture batch triggers a retry equal to
running the remaining attempts, a log-insert failure returns the error directly,
and three consecutive drift attempts leave the state unchanged and still retrying. -/
theorem c2_retry_unbounded_witness :
    runAttempt wDb0 (attemptOps wTables wData) driftAttempt =
      .error (.upsert, PgCode.undefinedTable) ∧
    SetBlock wTables wData wDb0 [driftAttempt, okAttempt] =
      SetBlock wTables wData wDb0 [okAttempt] ∧
    SetBlock wTables wData wDb0 [failAttempt] =
      (.failed (.pg OpKind.logIns PgCode.otherCode), wDb0) ∧
    SetBlock wTables wData wDb0 (List.replicate 3 driftAttempt) = (.retrying, wDb0) :=
  ⟨by decide,
   (c2_retry_unbounded wTables wData wDb0 driftAttempt).1 PgCode.undefinedTable [okAttempt]
     (by decide) (Or.inl rfl) (by decide),
   (c2_retry_unbounded wTables wData wDb0 failAttempt).2.1 OpKind.logIns PgCode.otherCode []
     (by decide) (by decide),
   (c2_retry_unbounded wTables wData wDb0 driftAttempt).2.2 3 (by decide) (by decide)⟩

/-- Per-position characterization of the column-building loop: position `i` of
the output (counter starting at `j`) carries the input's key and order
`j + i + 1 + gLen`. -/
lemma buildColumns_spec : ∀ (cols : List (String × EventColumn)) (gLen j : Nat)
    (out : List (String × SQLTableColumn)),
    buildColumns gLen j cols = .ok out →
    ∀ i, out[i]?.map (fun p => (p.1, p.2.order)) =
      cols[i]?.map (fun p => (p.1, (((j + i + 1) + gLen : Nat) : Int))) := by
  intro cols
  induction cols with
  | nil =>
    intro gLen j out h i
    rw [buildColumns] at h
    injection h with h
    subst h
    simp
  | cons c rest ih =>
    intro gLen j out h i
    obtain ⟨colName, col⟩ := c
    rw [buildColumns] at h
    cases hsql : getSQLType (strLower col.typ) false col.bytesToString with
    | error e => rw [hsql] at h; simp at h
    | ok st =>
      obtain ⟨sqlType, sqlLen⟩ := st
      rw [hsql] at h
      simp only at h
      cases hrest : buildColumns gLen (j + 1) rest with
      | error e => rw [hrest] at h; simp at h
      | ok out' =>
        rw [hrest] at h
        simp only at h
        injection h with h
        subst h
        cases i with
        | zero => simp
        | succ m =>
          have h2 := ih gLen (j + 1) out' hrest m
          have harith : (((j + 1) + m + 1) + gLen : Nat) = ((j + (m + 1) + 1) + gLen : Nat) := by
            omega
          rw [harith] at h2
          rw [List.getElem?_cons_succ, List.getElem?_cons_succ]
          exact h2

/-- C6 (amended): what the parser's column ordering actually guarantees.  The four
system columns carry the fixed orders 1-4 under the fixed names `_height`,
`_txhash`, `_eventtype`, `_eventname`; and the user columns get the consecutive
orders 5, 6, ... following the enumeration order of the `Columns` MAP (the list
`cols` models that enumeration), not the order of appearance in the event
signature's inputs.  Since Go map enumeration order is unspecified, two loads of
the same spec bytes may produce different catalogs and different CREATE TABLE
statements (theorem `c6_counterexample`). -/
theorem c6_column_order_amended :
    (getGlobalColumns.map (fun p => (p.2.name, p.2.order)) =
      [("_height", (1 : Int)), ("_txhash", 2), ("_eventtype", 3), ("_eventname", 4)]) ∧
    ∀ (cols : List (String × EventColumn)) (out : List (String × SQLTableColumn)),
      buildColumns getGlobalColumns.length 0 cols = .ok out →
      ∀ i, out[i]?.map (fun p => (p.1, p.2.order)) =
        cols[i]?.map (fun p => (p.1, (((0 + i + 1) + getGlobalColumns.length : Nat) : Int))) :=
  ⟨by decide, fun cols out h i => buildColumns_spec cols getGlobalColumns.length 0 out h i⟩

/-- Witness for C6 (amended): on the first enumeration of the fixture column map,
`buildColumns` succeeds with orders 5 then 6 following the enumeration order. -/
theorem c6_column_order_amended_witness :
    buildColumns getGlobalColumns.length 0 c6DefFirst.columns = .ok c6BuiltCols ∧
    (c6BuiltCols[0]?.map (fun p => (p.1, p.2.order)) =
      c6DefFirst.columns[0]?.map
        (fun p => (p.1, (((0 + 0 + 1) + getGlobalColumns.length : Nat) : Int)))) ∧
    (c6BuiltCols[1]?.map (fun p => (p.1, p.2.order)) =
      c6DefFirst.columns[1]?.map
        (fun p => (p.1, (((0 + 1 + 1) + getGlobalColumns.length : Nat) : Int)))) :=
  ⟨by decide,
   c6_column_order_amended.2 c6DefFirst.columns c6BuiltCols (by decide) 0,
   c6_column_order_amended.2 c6DefFirst.columns c6BuiltCols (by decide) 1⟩

end Vent
